import Mathlib

/-
Verification of the pipeline-engine core of homelab-gitops-auditor.

This file shallowly embeds the data model and the operations of
  modules/pipeline-engine/designer/PipelineBuilder.py
  modules/pipeline-engine/designer/NodeValidator.py
  modules/pipeline-engine/execution/PipelineRunner.py
  modules/pipeline-engine/execution/LogStreamer.py
as executable Lean definitions, and proves properties of the embedded code.

Conventions used throughout:
- Python dicts whose iteration order matters are embedded as association
  lists (List (String, value)) in insertion order; lookup takes the first
  matching key, as Python dict lookup does on duplicate-free key lists.
- datetime.now() readings are abstracted to Nat values (seconds) supplied
  as explicit parameters; timedelta arithmetic becomes Nat/Int arithmetic.
- Python ints are embedded as Int where the source can go negative
  (in-degree counters, retry counters), Nat otherwise.
- asyncio concurrency is sequentialised: an awaited sub-computation is a
  function call, and code that only the event loop interleaves is embedded
  as the sequential composition the single-threaded loop actually runs.
-/

namespace PipelineEngine

/-- Embeds ExecutionStatus from PipelineRunner.py (lines 27-36). -/
inductive ExecutionStatus where
  | pending
  | queued
  | running
  | completed
  | failed
  | cancelled
  | skipped
  | timeout
deriving DecidableEq, Repr

/-- Embeds NodeType from PipelineBuilder.py (lines 17-26). -/
inductive NodeType where
  | source
  | build
  | test
  | deploy
  | notification
  | condition
  | parallel_
  | sequential
deriving DecidableEq, Repr

/-- A Python runtime value, as far as node config dictionaries need:
str, bool, int, list, dict and None.  (Python bool is a subclass of int;
the isinst function below reflects that.) -/
inductive PyVal where
  | str (s : String)
  | int (n : Int)
  | bool (b : Bool)
  | list (xs : List PyVal)
  | dict (xs : List (String × PyVal))
  | none

/-- Python truthiness of a config value, used by the required-field check
(if not node.config[field]): empty string, zero, False, empty list, empty
dict and None are falsy. -/
def PyVal.truthy : PyVal → Bool
  | .str s => !(s == "")
  | .int n => !(n == 0)
  | .bool b => b
  | .list xs => !xs.isEmpty
  | .dict xs => !xs.isEmpty
  | .none => false

/-- Embeds PipelineNode from PipelineBuilder.py (lines 38-56).
The position field is a pure layout hint (never read by validation or
execution) and is embedded with Int coordinates. -/
structure PipelineNode where
  id : String
  name : String
  type : NodeType
  config : List (String × PyVal)
  position : List (String × Int) := []
  dependencies : List String := []
  timeout : Int := 300
  retry_count : Int := 0
  continue_on_error : Bool := false
  environment : List (String × String) := []

/-- Embeds the Pipeline dataclass from PipelineBuilder.py (lines 79-98),
restricted to the fields the builder operations read or write.  The
config blob is kept abstract as its id string; created_at/updated_at are
Nat timestamps, connections are ordered (from, to) pairs. -/
structure Pipeline where
  config_id : String
  nodes : List PipelineNode
  connections : List (String × String)
  created_at : Nat
  updated_at : Nat
  version : String := "1.0.0"

/-- First-match association-list lookup: Python dict access d.get(k). -/
def alookup {α : Type} (l : List (String × α)) (k : String) : Option α :=
  match l.find? (fun p => p.1 = k) with
  | some p => some p.2
  | Option.none => Option.none

/-- Python: k in d. -/
def hasKey {α : Type} (l : List (String × α)) (k : String) : Bool :=
  l.any (fun p => p.1 = k)

/- ------------------------------------------------------------------
LogStreamer.py - LogBuffer (lines 52-64)

self.entries = deque(maxlen=max_size); add_entry appends, and a full
deque discards from the opposite (oldest) end.  Entries are kept
abstract: the buffer logic is independent of the entry payload.
------------------------------------------------------------------ -/

/-- Embeds LogBuffer.add_entry from LogStreamer.py (lines 59-64): append
to a deque with maxlen max_size.  A deque with maxlen 0 stays empty; a
full deque drops its oldest element to admit the new one. -/
def add_entry {α : Type} (max_size : Nat) (entries : List α) (e : α) : List α :=
  if max_size = 0 then []
  else if entries.length < max_size then entries ++ [e]
  else entries.drop 1 ++ [e]

/-- The buffer contents after a sequence of add_entry calls starting from
the empty buffer. -/
def addAll {α : Type} (max_size : Nat) (es : List α) : List α :=
  es.foldl (add_entry max_size) []

/- ------------------------------------------------------------------
PipelineBuilder.connect_nodes (lines 238-264)
------------------------------------------------------------------ -/

/-- Replace the first node with the given id (Python: next(n for n ...)
yields the first match, and the mutation hits only that object). -/
def updateFirstNode (nodes : List PipelineNode) (nid : String)
    (f : PipelineNode → PipelineNode) : List PipelineNode :=
  match nodes with
  | [] => []
  | n :: ns => if n.id = nid then f n :: ns else n :: updateFirstNode ns nid f

/-- Embeds PipelineBuilder.connect_nodes (PipelineBuilder.py lines
238-264).  Returns the updated pipeline and the Bool result; now stands
for the datetime.now() reading used for updated_at. -/
def connect_nodes (p : Pipeline) (from_node_id to_node_id : String)
    (now : Nat) : Pipeline × Bool :=
  match p.nodes.find? (fun n => n.id = from_node_id),
        p.nodes.find? (fun n => n.id = to_node_id) with
  | some _, some _ =>
    if p.connections.any (fun c => c.1 = from_node_id ∧ c.2 = to_node_id) then
      (p, false)
    else
      ({ p with
          connections := p.connections ++ [(from_node_id, to_node_id)],
          nodes := updateFirstNode p.nodes to_node_id (fun n =>
            if from_node_id ∈ n.dependencies then n
            else { n with dependencies := n.dependencies ++ [from_node_id] }),
          updated_at := now },
       true)
  | _, _ => (p, false)

/- ------------------------------------------------------------------
PipelineRunner.py - execution state (lines 39-139)
------------------------------------------------------------------ -/

/-- Embeds the NodeExecution dataclass (PipelineRunner.py lines 39-57).
Timestamps are Nat seconds, duration the difference of the two. -/
structure NodeExecution where
  node_id : String
  node_name : String
  status : ExecutionStatus
  started_at : Option Nat := Option.none
  completed_at : Option Nat := Option.none
  duration : Option Nat := Option.none
  logs : List String := []
  outputs : List (String × PyVal) := []
  error_message : Option String := Option.none
  retry_count : Int := 0

/-- Embeds the NodeExecution.is_completed property (lines 63-66): the
status is terminal. -/
def NodeExecution.is_completed (ne : NodeExecution) : Bool :=
  [ExecutionStatus.completed, ExecutionStatus.failed, ExecutionStatus.cancelled,
   ExecutionStatus.skipped, ExecutionStatus.timeout].contains ne.status

/-- Embeds the PipelineExecution dataclass (PipelineRunner.py lines
77-103).  Note: this dataclass defines no is_completed member; only
NodeExecution does. -/
structure PipelineExecution where
  execution_id : String
  pipeline_id : String
  pipeline_name : String
  status : ExecutionStatus
  started_at : Nat
  completed_at : Option Nat := Option.none
  duration : Option Nat := Option.none
  trigger : String := "manual"
  triggered_by : String := "system"
  node_executions : List (String × NodeExecution) := []
  execution_order : List (List String) := []
  current_stage : Nat := 0
  total_stages : Nat := 0
  environment : List (String × String) := []
  error_message : Option String := Option.none
  cancelled_by : Option String := Option.none

/-- The Python attribute access execution.is_completed performed by
_monitoring_loop (line 281).  The PipelineExecution dataclass (lines
77-139) declares no such field or property - is_completed lives on
NodeExecution only - so in Python the access raises AttributeError.
The embedding returns the exception as an Except error. -/
def PipelineExecution.attr_is_completed (_e : PipelineExecution) :
    Except String Bool :=
  Except.error "AttributeError: PipelineExecution has no attribute is_completed"

/-- Embeds the body of one _monitoring_loop pass (PipelineRunner.py lines
276-287): build the to_remove list by testing, for each active execution,
execution.is_completed and execution.completed_at < cutoff_time where
cutoff_time = now - 1 hour.  The conjunction short-circuits left to
right, so the is_completed attribute access runs first; any exception
propagates out of the list-building loop. -/
def monitoring_to_remove (now : Nat)
    (active : List (String × PipelineExecution)) : Except String (List String) :=
  active.foldlM
    (fun acc p => do
      let b ← p.2.attr_is_completed
      match p.2.completed_at with
      | some t =>
        if b && decide (t < now - 3600) then pure (acc ++ [p.1]) else pure acc
      | Option.none => pure acc)
    []

/-- One iteration of _monitoring_loop (PipelineRunner.py lines 274-292):
on success, the collected executions are deleted from the active table;
an exception anywhere in the body is caught by the except clause (line
291), logged, and leaves the table untouched. -/
def monitoring_loop_iteration (now : Nat)
    (active : List (String × PipelineExecution)) :
    List (String × PipelineExecution) :=
  match monitoring_to_remove now active with
  | Except.error _ => active
  | Except.ok to_remove => active.filter (fun p => !(to_remove.contains p.1))

/- ------------------------------------------------------------------
PipelineRunner.py - node execution (lines 387-446, 556-562)
------------------------------------------------------------------ -/

/-- Embeds _are_dependencies_satisfied (PipelineRunner.py lines 556-562):
every dependency id must have a NodeExecution in the table whose status
is COMPLETED. -/
def are_dependencies_satisfied
    (node_executions : List (String × NodeExecution))
    (node : PipelineNode) : Bool :=
  node.dependencies.all (fun dep_id =>
    match alookup node_executions dep_id with
    | some dep_exec => dep_exec.status == ExecutionStatus.completed
    | Option.none => false)

/-- Outcome of one invocation of _run_node_logic under its timeout wrap
(PipelineRunner.py lines 408-412): it returns, it outruns the timeout
(asyncio.TimeoutError), or it raises a step error.  The concrete body
simulates work with sleeps; the embedding abstracts it as an oracle
indexed by the NodeExecution's retry counter at call time, so that each
attempt may behave differently. -/
inductive WorkOutcome where
  | ok
  | timesOut
  | err (msg : String)

/-- Embeds _execute_node (PipelineRunner.py lines 387-446).  deps_ok is
the _are_dependencies_satisfied result at entry; now abstracts the
datetime.now() readings.  The second component is a ghost counter of
_run_node_logic invocations (attempts).  The asyncio.TimeoutError clause
precedes the generic Exception clause, so a timeout never reaches the
retry branch; a step error retries while node_exec.retry_count <
node.retry_count by incrementing the same NodeExecution's counter and
re-entering _execute_node, which skips the completed_at assignment of
the aborted attempt (the return on line 430). -/
def execute_node (work : Int → WorkOutcome) (deps_ok : Bool)
    (node : PipelineNode) (now : Nat) (ne : NodeExecution) :
    NodeExecution × Nat :=
  if !deps_ok then
    ({ ne with
        status := ExecutionStatus.skipped,
        error_message := some "Dependencies not satisfied" }, 0)
  else
    let ne1 := { ne with
                  status := ExecutionStatus.running,
                  started_at := some now }
    match work ne1.retry_count with
    | WorkOutcome.ok =>
      ({ ne1 with
          status := ExecutionStatus.completed,
          completed_at := some now, duration := some 0 }, 1)
    | WorkOutcome.timesOut =>
      ({ ne1 with
          status := ExecutionStatus.timeout,
          error_message :=
            some ("Node timed out after " ++ toString node.timeout ++ " seconds"),
          completed_at := some now, duration := some 0 }, 1)
    | WorkOutcome.err m =>
      if h : ne1.retry_count < node.retry_count then
        let ne3 := { ne1 with
                      status := ExecutionStatus.failed,
                      error_message := some m,
                      retry_count := ne1.retry_count + 1 }
        let r := execute_node work deps_ok node now ne3
        (r.1, r.2 + 1)
      else
        ({ ne1 with
            status := ExecutionStatus.failed,
            error_message := some m,
            completed_at := some now, duration := some 0 }, 1)
termination_by (node.retry_count - ne.retry_count).toNat
decreasing_by
  simp only [ne1] at h ⊢
  omega

/- ------------------------------------------------------------------
PipelineRunner.py - stage loop of _start_execution (lines 294-374)
------------------------------------------------------------------ -/

/-- Embeds the stage_failed check (PipelineRunner.py lines 330-333): some
node of the stage has a FAILED NodeExecution. -/
def stage_failed (node_executions : List (String × NodeExecution))
    (node_ids : List String) : Bool :=
  node_ids.any (fun nid =>
    match alookup node_executions nid with
    | some ne => ne.status == ExecutionStatus.failed
    | Option.none => false)

/-- Embeds the continue_execution check (PipelineRunner.py lines
337-342): ANY failed node of the stage has continue_on_error set.  The
pipeline_nodes dict {n.id: n for n in pipeline.nodes} keeps the last
node for a duplicated id, hence the reversed find. -/
def continue_execution_check (pipeline_nodes : List PipelineNode)
    (node_executions : List (String × NodeExecution))
    (node_ids : List String) : Bool :=
  node_ids.any (fun nid =>
    (match alookup node_executions nid with
     | some ne => ne.status == ExecutionStatus.failed
     | Option.none => false)
    &&
    (match pipeline_nodes.reverse.find? (fun n => n.id = nid) with
     | some n => n.continue_on_error
     | Option.none => false))

/-- Embeds the per-stage loop of _start_execution (PipelineRunner.py
lines 316-347).  exec_stage stands for _execute_stage (line 375): the
settled node-execution table once every node task of the stage has
reached a terminal state (the asyncio.gather barrier).  After each
stage the loop checks cancellation, then the failure policy: a failed
stage stops the loop (break) with status FAILED and the aggregate
error_message unless continue_execution_check holds. -/
def run_stage_loop (pipeline_nodes : List PipelineNode)
    (exec_stage : List (String × NodeExecution) → List String →
      List (String × NodeExecution)) :
    PipelineExecution → Nat → List (List String) → PipelineExecution
  | ex, _, [] => ex
  | ex, i, node_ids :: rest =>
    let ex1 := { ex with
                  current_stage := i,
                  node_executions := exec_stage ex.node_executions node_ids }
    if ex1.status = ExecutionStatus.cancelled then ex1
    else if stage_failed ex1.node_executions node_ids
        && !(continue_execution_check pipeline_nodes ex1.node_executions node_ids)
    then
      { ex1 with
          status := ExecutionStatus.failed,
          error_message := some "Pipeline failed due to node failures" }
    else run_stage_loop pipeline_nodes exec_stage ex1 (i + 1) rest

/-- Embeds _start_execution (PipelineRunner.py lines 294-374) for an
execution whose pipeline loads successfully: status RUNNING, run the
stage loop over the precomputed execution_order, then resolve COMPLETED
if still RUNNING, and stamp completion time and duration.  The
_load_pipeline call is the storage-collaborator port (a mock in the
source); the loaded pipeline's node list is the pipeline_nodes
parameter. -/
def start_execution (pipeline_nodes : List PipelineNode)
    (exec_stage : List (String × NodeExecution) → List String →
      List (String × NodeExecution))
    (now : Nat) (ex : PipelineExecution) : PipelineExecution :=
  let ex0 := { ex with status := ExecutionStatus.running, started_at := now }
  let ex1 := run_stage_loop pipeline_nodes exec_stage ex0 0 ex.execution_order
  let ex2 :=
    if ex1.status = ExecutionStatus.running then
      { ex1 with status := ExecutionStatus.completed }
    else ex1
  { ex2 with completed_at := some now, duration := some (now - ex2.started_at) }

/- ------------------------------------------------------------------
Topological staging: PipelineBuilder.get_execution_order (lines
406-438) and PipelineRunner._calculate_execution_order (lines 564-592),
which run the identical Kahn level algorithm.
------------------------------------------------------------------ -/

/-- The adjacency list graph[u] built by appending conn['to'] for each
connection with from = u, in connection order (PipelineBuilder.py lines
419-420 / PipelineRunner.py lines 570-572). -/
def adj (conns : List (String × String)) (u : String) : List String :=
  (conns.filter (fun c => c.1 = u)).map (fun c => c.2)

/-- The in_degree table after the build loop: one increment per
connection targeting v (same lines).  All keys start at 0, so the entry
equals the number of connections into v. -/
def build_in_degree (conns : List (String × String)) : String → Int :=
  conns.foldl
    (fun f c => fun w => if w = c.2 then f w + 1 else f w)
    (fun _ => 0)

/-- One step of the inner decrement loop (lines 433-436 / 587-590):
in_degree[neighbor] -= 1, and neighbor joins the next queue exactly when
its count hits 0. -/
def kahn_step1 (s : (String → Int) × List String) (v : String) :
    (String → Int) × List String :=
  let d := s.1 v - 1
  ((fun w => if w = v then d else s.1 w),
   if d = 0 then s.2 ++ [v] else s.2)

/-- Processing one member of the current stage: walk its adjacency
list. -/
def process_neighbors (conns : List (String × String))
    (s : (String → Int) × List String) (u : String) :
    (String → Int) × List String :=
  (adj conns u).foldl kahn_step1 s

/-- Processing a whole stage (lines 432-436 / 586-590): queue starts
empty and collects the nodes whose in-degree reaches zero. -/
def process_stage (conns : List (String × String)) (stage : List String)
    (deg : String → Int) : (String → Int) × List String :=
  stage.foldl (process_neighbors conns) (deg, [])

/-- The while queue loop (lines 427-436 / 579-590).  The fuel argument
bounds the iteration count; each iteration with a non-empty queue
schedules at least one previously unscheduled node, so any fuel above
the node count is never exhausted (kahn_loop_master below is proved
from an invariant that entails this). -/
def kahn_loop (conns : List (String × String)) :
    Nat → (String → Int) → List String → List (List String)
  | _, _, [] => []
  | 0, _, _ => []
  | fuel + 1, deg, queue =>
    let s := process_stage conns queue deg
    queue :: kahn_loop conns fuel s.1 s.2

/-- Embeds PipelineRunner._calculate_execution_order (lines 564-592) on
the node id list and connection list: Kahn level order.  The initial
queue lists the zero-in-degree nodes in node order (dict insertion
order). -/
def calculate_execution_order (nodes : List String)
    (conns : List (String × String)) : List (List String) :=
  kahn_loop conns (nodes.length + 1) (build_in_degree conns)
    (nodes.filter (fun v => build_in_degree conns v = 0))

/-- Embeds PipelineBuilder.get_execution_order (lines 406-438): an
early empty-pipeline return followed by the same Kahn level algorithm
as _calculate_execution_order, line for line. -/
def get_execution_order (p : Pipeline) : List (List String) :=
  if p.nodes.isEmpty then []
  else calculate_execution_order (p.nodes.map (fun n => n.id)) p.connections

/-- The edge relation induced by the connection list. -/
def EdgeRel (conns : List (String × String)) (u v : String) : Prop :=
  (u, v) ∈ conns

/-- A connection graph is acyclic when no node reaches itself through a
non-empty directed path. -/
def Acyclic (conns : List (String × String)) : Prop :=
  ∀ v, ¬ Relation.TransGen (EdgeRel conns) v v

/-- Number of connections into v (the initial in-degree, as a count). -/
def indegN (conns : List (String × String)) (v : String) : Nat :=
  conns.countP (fun c => c.2 = v)

/-- Number of connections into v whose source lies in S. -/
def edgesFrom (conns : List (String × String)) (S : List String)
    (v : String) : Nat :=
  conns.countP (fun c => c.2 = v && decide (c.1 ∈ S))

/-- Loop invariant of the Kahn staging: D is the (duplicate-free) list
of already scheduled nodes, deg the current in_degree table, queue the
pending stage.  The queue holds exactly the unscheduled nodes all of
whose in-edges come from D, and scheduled nodes have all their in-edges
inside D. -/
structure KahnInv (conns : List (String × String)) (nodes : List String)
    (D : List String) (deg : String → Int) (queue : List String) : Prop where
  d_sub : ∀ v ∈ D, v ∈ nodes
  d_nodup : D.Nodup
  q_nodup : queue.Nodup
  deg_eq : ∀ v, deg v = (indegN conns v : Int) - (edgesFrom conns D v : Int)
  q_mem : ∀ v, v ∈ queue ↔
    (v ∈ nodes ∧ v ∉ D ∧ edgesFrom conns D v = indegN conns v)
  d_full : ∀ v ∈ D, edgesFrom conns D v = indegN conns v

/- ------------------------------------------------------------------
Cycle detection: PipelineBuilder._has_cycles (lines 331-367)
------------------------------------------------------------------ -/

/-- graph.get(node_id, []) in the _has_cycles DFS (line 355): the
adjacency list of a known node, [] otherwise.  Edges are only inserted
for connections whose from endpoint is a node (line 339). -/
def dfs_neighbors (nodeIds : List String) (conns : List (String × String))
    (u : String) : List String :=
  if u ∈ nodeIds then adj conns u else []

mutual

/-- Embeds the recursive dfs of _has_cycles (PipelineBuilder.py lines
346-360) with the two mutated sets threaded explicitly: visited grows
monotonically; rec_stack gains v for the duration of its call and is
restored on a False return (on a True return the whole computation
short-circuits to True, so the restored value is never consulted).  The
extra black component is ghost instrumentation recording, in completion
order, the nodes whose call returned False; it does not influence the
Bool or visited results.  fuel bounds the recursion depth; each
recursing call adds a fresh node of the graph to visited before
descending, so a depth beyond the node count cannot occur and the
exhaustion branch (which returns True and would short-circuit) is
unreachable from has_cycles below. -/
def dfs_visit (nodeIds : List String) (conns : List (String × String))
    (fuel : Nat) (v : String) (visited recStack black : List String) :
    Bool × List String × List String :=
  match fuel with
  | 0 => (true, visited, black)
  | fuel + 1 =>
    if v ∈ recStack then (true, visited, black)
    else if v ∈ visited then (false, visited, black)
    else
      match dfs_list nodeIds conns fuel (dfs_neighbors nodeIds conns v)
        (visited ++ [v]) (recStack ++ [v]) black with
      | (true, vis2, bl2) => (true, vis2, bl2)
      | (false, vis2, bl2) => (false, vis2, bl2 ++ [v])
termination_by (fuel, 0)

/-- The for neighbor in graph.get(...) loop of the dfs (lines 355-357):
an inner True returns immediately; otherwise the walk continues with
the grown visited set. -/
def dfs_list (nodeIds : List String) (conns : List (String × String))
    (fuel : Nat) (vs : List String) (visited recStack black : List String) :
    Bool × List String × List String :=
  match vs with
  | [] => (false, visited, black)
  | v :: rest =>
    match dfs_visit nodeIds conns fuel v visited recStack black with
    | (true, vis2, bl2) => (true, vis2, bl2)
    | (false, vis2, bl2) =>
      dfs_list nodeIds conns fuel rest vis2 recStack bl2
termination_by (fuel, vs.length + 1)

end

/-- Invariant of the cycle-detection DFS: visited is partitioned into
the grey rec_stack and the black completed nodes; black is
duplicate-free and listed in completion order, so every neighbour of a
black node is black and completed strictly earlier. -/
structure DfsInv (nodeIds : List String) (conns : List (String × String))
    (visited recStack black : List String) : Prop where
  vis_iff : ∀ x, x ∈ visited ↔ (x ∈ recStack ∨ x ∈ black)
  disj : ∀ x ∈ recStack, x ∉ black
  b_nodup : black.Nodup
  closure : ∀ k (hk : k < black.length) (y : String),
    y ∈ dfs_neighbors nodeIds conns (black.get ⟨k, hk⟩) → y ∈ black.take k

/-- The outer loop of _has_cycles (lines 362-365): run the dfs from
every not yet visited node; any True aborts with True. -/
def has_cycles_loop (nodeIds : List String) (conns : List (String × String)) :
    List String → List String → List String → Bool
  | [], _, _ => false
  | u :: us, visited, black =>
    if u ∈ visited then has_cycles_loop nodeIds conns us visited black
    else
      match dfs_visit nodeIds conns (nodeIds.length + 1) u visited [] black with
      | (true, _, _) => true
      | (false, vis2, bl2) => has_cycles_loop nodeIds conns us vis2 bl2

/-- Embeds PipelineBuilder._has_cycles (lines 331-367). -/
def has_cycles (p : Pipeline) : Bool :=
  has_cycles_loop (p.nodes.map (fun n => n.id)) p.connections
    (p.nodes.map (fun n => n.id)) [] []

/- ------------------------------------------------------------------
PipelineBuilder._find_disconnected_nodes (lines 369-404) and
validate_pipeline (lines 282-329)
------------------------------------------------------------------ -/

/-- The undirected adjacency built by lines 381-383: per connection,
first the forward entry, then the backward entry. -/
def undirected_adj (conns : List (String × String)) (u : String) :
    List String :=
  conns.flatMap (fun c =>
    (if c.1 = u then [c.2] else []) ++ (if c.2 = u then [c.1] else []))

/-- connections.get(node_id, []) in the reachability dfs (line 394). -/
def fd_neighbors (nodeIds : List String) (conns : List (String × String))
    (u : String) : List String :=
  if u ∈ nodeIds then undirected_adj conns u else []

mutual

/-- The reachability dfs of _find_disconnected_nodes (lines 390-395),
threading the connected set; fuel as in dfs_visit. -/
def fd_visit (nodeIds : List String) (conns : List (String × String))
    (fuel : Nat) (u : String) (connected : List String) : List String :=
  match fuel with
  | 0 => connected
  | fuel + 1 =>
    if u ∈ connected then connected
    else fd_list nodeIds conns fuel (fd_neighbors nodeIds conns u)
      (connected ++ [u])
termination_by (fuel, 0)

def fd_list (nodeIds : List String) (conns : List (String × String))
    (fuel : Nat) (vs : List String) (connected : List String) :
    List String :=
  match vs with
  | [] => connected
  | v :: rest =>
    fd_list nodeIds conns fuel rest (fd_visit nodeIds conns fuel v connected)
termination_by (fuel, vs.length + 1)

end

/-- Embeds _find_disconnected_nodes (lines 369-404): undirected
reachability from the Source-typed nodes (or the first node when none),
reporting the names of unreached nodes. -/
def find_disconnected_nodes (p : Pipeline) : List String :=
  match p.nodes with
  | [] => []
  | n0 :: _ =>
    let ids := p.nodes.map (fun n => n.id)
    let source_ids :=
      (p.nodes.filter (fun n => n.type == NodeType.source)).map
        (fun n => n.id)
    let start_ids := if source_ids.isEmpty then [n0.id] else source_ids
    let connected := start_ids.foldl
      (fun acc s => fd_visit ids p.connections (ids.length + 1) s acc) []
    (p.nodes.filter (fun n => !(connected.contains n.id))).map
      (fun n => n.name)

/-- required_config per node type from _load_node_definitions
(PipelineBuilder.py lines 123-173); PARALLEL and SEQUENTIAL have no
definition entry and .get returns the empty default. -/
def builder_required_config : NodeType → List String
  | NodeType.source => ["repository", "branch"]
  | NodeType.build => ["build_command"]
  | NodeType.test => ["test_command"]
  | NodeType.deploy => ["target_environment", "deploy_command"]
  | NodeType.notification => ["notification_type", "recipients"]
  | NodeType.condition => ["condition_expression"]
  | _ => []

/-- Embeds PipelineBuilder._validate_node (lines 318-329): one error
string per missing required config key. -/
def builder_validate_node (node : PipelineNode) : List String :=
  (builder_required_config node.type).flatMap (fun f =>
    if !(hasKey node.config f) then
      ["Node '" ++ node.name ++ "' missing required config: " ++ f]
    else [])

/-- The validate_pipeline report (lines 310-316). -/
structure PipelineValidationReport where
  valid : Bool
  errors : List String
  warnings : List String
  node_count : Nat
  connection_count : Nat
deriving DecidableEq, Repr

/-- Embeds PipelineBuilder.validate_pipeline (lines 282-316): errors
from emptiness, cycles and per-node required config; warnings from
disconnected nodes and a missing source node; valid iff no errors. -/
def validate_pipeline (p : Pipeline) : PipelineValidationReport :=
  let errors :=
    (if p.nodes.isEmpty then ["Pipeline must have at least one node"] else [])
    ++ (if has_cycles p then ["Pipeline contains circular dependencies"]
        else [])
    ++ p.nodes.flatMap builder_validate_node
  let disconnected := find_disconnected_nodes p
  let warnings :=
    (if !disconnected.isEmpty then
      ["Disconnected nodes found: " ++ String.intercalate ", " disconnected]
     else [])
    ++ (if (p.nodes.filter (fun n => n.type == NodeType.source)).isEmpty then
      ["Pipeline should have at least one source node"]
     else [])
  { valid := errors.isEmpty, errors := errors, warnings := warnings,
    node_count := p.nodes.length, connection_count := p.connections.length }

/- ------------------------------------------------------------------
NodeValidator.py - validate_node, specialised to Deploy nodes
(lines 17-51, 132-158, 211-251, 253-344, 346-387, 487-511, 531-567)
------------------------------------------------------------------ -/

/-- Embeds ValidationLevel (NodeValidator.py lines 17-21). -/
inductive ValidationLevel where
  | error
  | warning
  | info
deriving DecidableEq, Repr

/-- Embeds ValidationResult (NodeValidator.py lines 24-30). -/
structure ValidationResult where
  level : ValidationLevel
  message : String
  field : Option String := Option.none
  suggestion : Option String := Option.none
deriving DecidableEq, Repr

/-- Embeds NodeValidationReport (NodeValidator.py lines 33-39),
restricted to the stored fields (the errors/warnings/infos properties
are filters over results). -/
structure NodeValidationReport where
  node_id : String
  node_name : String
  is_valid : Bool
  results : List ValidationResult
deriving DecidableEq, Repr

/-- The Python classes used in the field_types tables (str, int, bool,
list, dict). -/
inductive PyType where
  | tStr
  | tInt
  | tBool
  | tList
  | tDict
deriving DecidableEq, Repr

/-- Python isinstance for the table classes.  A Python bool is an
instance of int. -/
def isinst : PyVal → PyType → Bool
  | PyVal.str _, PyType.tStr => true
  | PyVal.int _, PyType.tInt => true
  | PyVal.bool _, PyType.tBool => true
  | PyVal.bool _, PyType.tInt => true
  | PyVal.list _, PyType.tList => true
  | PyVal.dict _, PyType.tDict => true
  | _, _ => false

/-- Printable name of a table class, as used in type-error messages. -/
def PyType.pyName : PyType → String
  | PyType.tStr => "str"
  | PyType.tInt => "int"
  | PyType.tBool => "bool"
  | PyType.tList => "list"
  | PyType.tDict => "dict"

/-- Python str() of a config value, as far as the pattern checks need:
identity on strings, True/False for bools, decimal for ints.  The
renderings of compound values stand in for repr; the theorems only
apply patterns to string-valued fields. -/
def PyVal.pyStr : PyVal → String
  | PyVal.str s => s
  | PyVal.bool b => if b then "True" else "False"
  | PyVal.int n => toString n
  | PyVal.list _ => "[list]"
  | PyVal.dict _ => "[dict]"
  | PyVal.none => "None"

/-- Python float() of a config value for the range checks: ints and
bools convert, numeric strings parse (integer parsing stands in for
float parsing; the deploy range field is int-typed), everything else
raises, modelled as Option.none. -/
def PyVal.pyFloat : PyVal → Option Int
  | PyVal.int n => some n
  | PyVal.bool b => some (if b then 1 else 0)
  | PyVal.str s => s.toInt?
  | _ => Option.none

/-- Python equality of a config value against a string literal: only a
str compares equal to a str. -/
def PyVal.eqStr : PyVal → String → Bool
  | PyVal.str s, w => s == w
  | _, _ => false

/-- Embeds re.match of r"^(dev|staging|prod|production)$" (the
target_environment pattern, NodeValidator.py line 144): the anchored
alternation; a Python dollar also accepts one trailing newline. -/
def deploy_env_pattern (s : String) : Bool :=
  ["dev", "staging", "prod", "production"].any
    (fun w => s == w || s == w ++ "\n")

/-- Embeds re.match of r".+" (the deploy_command pattern, line 145):
at least one leading character that is not a newline. -/
def dot_plus_pattern (s : String) : Bool :=
  match s.toList with
  | [] => false
  | c :: _ => !(c == '\n')

/-- Membership in the character class [a-zA-Z0-9.-]. -/
def url_host_char (c : Char) : Bool :=
  ('a' ≤ c && c ≤ 'z') || ('A' ≤ c && c ≤ 'Z') ||
  ('0' ≤ c && c ≤ '9') || c == '.' || c == '-'

/-- Embeds re.match of r"^https?://[a-zA-Z0-9.-]+" (the
health_check_url pattern, line 146): an http or https scheme followed
by at least one host character; unanchored on the right. -/
def deploy_health_url_pattern (s : String) : Bool :=
  if s.startsWith "https://" then
    match (s.drop 8).toList with
    | c :: _ => url_host_char c
    | [] => false
  else if s.startsWith "http://" then
    match (s.drop 7).toList with
    | c :: _ => url_host_char c
    | [] => false
  else false

/-- Embeds re.match of r"^(rolling|blue-green|canary)$" (the strategy
pattern, line 147). -/
def deploy_strategy_pattern (s : String) : Bool :=
  ["rolling", "blue-green", "canary"].any
    (fun w => s == w || s == w ++ "\n")

/-- required_fields of the DEPLOY rules row (NodeValidator.py line 133). -/
def deploy_required_fields : List String :=
  ["target_environment", "deploy_command"]

/-- optional_fields of the DEPLOY rules row (line 134). -/
def deploy_optional_fields : List String :=
  ["health_check_url", "rollback_enabled", "timeout", "strategy"]

/-- field_types of the DEPLOY rules row (lines 135-142). -/
def deploy_field_types : List (String × PyType) :=
  [("target_environment", PyType.tStr), ("deploy_command", PyType.tStr),
   ("health_check_url", PyType.tStr), ("rollback_enabled", PyType.tBool),
   ("timeout", PyType.tInt), ("strategy", PyType.tStr)]

/-- field_patterns of the DEPLOY rules row (lines 143-148), each paired
with its regex source text for the suggestion message. -/
def deploy_field_patterns : List (String × String × (String → Bool)) :=
  [("target_environment", "^(dev|staging|prod|production)$", deploy_env_pattern),
   ("deploy_command", ".+", dot_plus_pattern),
   ("health_check_url", "^https?://[a-zA-Z0-9.-]+", deploy_health_url_pattern),
   ("strategy", "^(rolling|blue-green|canary)$", deploy_strategy_pattern)]

/-- field_ranges of the DEPLOY rules row (lines 149-151). -/
def deploy_field_ranges : List (String × Int × Int) :=
  [("timeout", 30, 3600)]

/-- dependencies bounds of the DEPLOY rules row (lines 152-157). -/
def deploy_dep_bounds : Nat × Nat × Nat × Nat :=
  (1, 2, 0, 1)

/-- Embeds _validate_required_fields (NodeValidator.py lines 253-273):
a missing required field or a present but falsy one is an Error. -/
def validate_required_fields (node : PipelineNode)
    (required_fields : List String) : List ValidationResult :=
  required_fields.flatMap (fun field =>
    match alookup node.config field with
    | Option.none =>
      [{ level := ValidationLevel.error,
         message := "Required field '" ++ field ++ "' is missing",
         field := some field,
         suggestion := some ("Add '" ++ field ++ "' to node configuration") }]
    | some v =>
      if !v.truthy then
        [{ level := ValidationLevel.error,
           message := "Required field '" ++ field ++ "' cannot be empty",
           field := some field }]
      else [])

/-- Embeds _validate_field_types (lines 275-301) for a single-class
table row: a present field of the wrong class is an Error. -/
def validate_field_types (node : PipelineNode)
    (field_types : List (String × PyType)) : List ValidationResult :=
  field_types.flatMap (fun ft =>
    match alookup node.config ft.1 with
    | some v =>
      if !(isinst v ft.2) then
        [{ level := ValidationLevel.error,
           message := "Field '" ++ ft.1 ++ "' must be of type "
             ++ ft.2.pyName,
           field := some ft.1 }]
      else []
    | Option.none => [])

/-- Embeds _validate_field_patterns (lines 303-319): str(value) of a
present field failing its regex is an Error. -/
def validate_field_patterns (node : PipelineNode)
    (pats : List (String × String × (String → Bool))) :
    List ValidationResult :=
  pats.flatMap (fun pt =>
    match alookup node.config pt.1 with
    | some v =>
      if !(pt.2.2 v.pyStr) then
        [{ level := ValidationLevel.error,
           message := "Field '" ++ pt.1 ++ "' does not match required pattern",
           field := some pt.1,
           suggestion := some ("Value must match pattern: " ++ pt.2.1) }]
      else []
    | Option.none => [])

/-- Embeds _validate_field_ranges (lines 321-344): float(value) of a
present field outside [lo, hi] is an Error, and a value float() rejects
is an Error. -/
def validate_field_ranges (node : PipelineNode)
    (ranges : List (String × Int × Int)) : List ValidationResult :=
  ranges.flatMap (fun rg =>
    match alookup node.config rg.1 with
    | some v =>
      match v.pyFloat with
      | some x =>
        if x < rg.2.1 || x > rg.2.2 then
          [{ level := ValidationLevel.error,
             message := "Field '" ++ rg.1 ++ "' must be between "
               ++ toString rg.2.1 ++ " and " ++ toString rg.2.2,
             field := some rg.1 }]
        else []
      | Option.none =>
        [{ level := ValidationLevel.error,
           message := "Field '" ++ rg.1 ++ "' must be a numeric value",
           field := some rg.1 }]
    | Option.none => [])

/-- Embeds _validate_node_dependencies (lines 346-387): input count
below minimum is an Error, above maximum a Warning; output count below
minimum a Warning, above maximum an Info. -/
def validate_node_dependencies (node : PipelineNode) (pipeline : Pipeline)
    (bounds : Nat × Nat × Nat × Nat) : List ValidationResult :=
  let input_count := node.dependencies.length
  let output_count :=
    (pipeline.connections.filter (fun c => c.1 = node.id)).length
  (if input_count < bounds.1 then
    [{ level := ValidationLevel.error,
       message := "Node requires at least " ++ toString bounds.1
         ++ " input connection(s), but has " ++ toString input_count,
       suggestion := some "Connect required input nodes" }]
   else if input_count > bounds.2.1 then
    [{ level := ValidationLevel.warning,
       message := "Node has " ++ toString input_count
         ++ " input connections, maximum recommended is "
         ++ toString bounds.2.1 }]
   else [])
  ++
  (if output_count < bounds.2.2.1 then
    [{ level := ValidationLevel.warning,
       message := "Node should have at least " ++ toString bounds.2.2.1
         ++ " output connection(s), but has " ++ toString output_count,
       suggestion := some "Connect output nodes or add notification nodes" }]
   else if output_count > bounds.2.2.2 then
    [{ level := ValidationLevel.info,
       message := "Node has " ++ toString output_count
         ++ " output connections, which may impact performance" }]
   else [])

/-- Embeds _validate_deploy_node (NodeValidator.py lines 487-511): for a
prod/production target_environment, a missing health_check_url key is a
Warning, and config.get("rollback_enabled") is not True is a Warning. -/
def validate_deploy_node (node : PipelineNode) : List ValidationResult :=
  match alookup node.config "target_environment" with
  | some env =>
    if env.eqStr "prod" || env.eqStr "production" then
      (if !(hasKey node.config "health_check_url") then
        [{ level := ValidationLevel.warning,
           message := "Production deployment should include health checks",
           suggestion := some "Add health_check_url configuration" }]
       else [])
      ++
      (if !(match alookup node.config "rollback_enabled" with
            | some (PyVal.bool true) => true
            | _ => false) then
        [{ level := ValidationLevel.warning,
           message := "Production deployment should enable rollback",
           suggestion := some "Set rollback_enabled to true" }]
       else [])
    else []
  | Option.none => []

/-- Embeds _validate_timeout_settings (lines 531-548) on the node's
timeout attribute. -/
def validate_timeout_settings (node : PipelineNode) : List ValidationResult :=
  if node.timeout ≤ 0 then
    [{ level := ValidationLevel.error,
       message := "Timeout must be greater than 0",
       field := some "timeout" }]
  else if node.timeout > 7200 then
    [{ level := ValidationLevel.warning,
       message := "Very long timeout may indicate inefficient process",
       field := some "timeout" }]
  else []

/-- Embeds _validate_unused_config (lines 550-567): a config key outside
required and optional fields is an Info. -/
def validate_unused_config (node : PipelineNode)
    (required_fields optional_fields : List String) : List ValidationResult :=
  node.config.flatMap (fun kv =>
    if !(required_fields.contains kv.1 || optional_fields.contains kv.1) then
      [{ level := ValidationLevel.info,
         message := "Unknown configuration key: '" ++ kv.1 ++ "'",
         field := some kv.1,
         suggestion := some "Remove unused configuration or check spelling" }]
    else [])

/-- Embeds validate_node (NodeValidator.py lines 211-251) as specialised
to a Deploy node (node.type = DEPLOY selects the DEPLOY rules row and
the _validate_deploy_node branch of _validate_node_specific).  The
results concatenate in source order: required fields, field types,
patterns, ranges, dependency bounds when a pipeline context is given,
deploy-specific rules, timeout settings, unused keys; is_valid iff no
Error-level result. -/
def validate_node_deploy_results (node : PipelineNode)
    (ctx : Option Pipeline) : List ValidationResult :=
  validate_required_fields node deploy_required_fields
  ++ validate_field_types node deploy_field_types
  ++ validate_field_patterns node deploy_field_patterns
  ++ validate_field_ranges node deploy_field_ranges
  ++ (match ctx with
      | some p => validate_node_dependencies node p deploy_dep_bounds
      | Option.none => [])
  ++ validate_deploy_node node
  ++ validate_timeout_settings node
  ++ validate_unused_config node deploy_required_fields deploy_optional_fields

def validate_node_deploy (node : PipelineNode) (ctx : Option Pipeline) :
    NodeValidationReport :=
  { node_id := node.id, node_name := node.name,
    is_valid := !((validate_node_deploy_results node ctx).any
      (fun r => r.level == ValidationLevel.error)),
    results := validate_node_deploy_results node ctx }

/- ------------------------------------------------------------------
Concrete instances used to evaluate the embedded code
------------------------------------------------------------------ -/

/-- A terminal execution whose completed_at lies far in the past, as fed
to the monitoring loop. -/
def c6_execution : PipelineExecution :=
  { execution_id := "e1", pipeline_id := "p1", pipeline_name := "P",
    status := ExecutionStatus.completed, started_at := 0,
    completed_at := some 0 }

/-- Stage ["a", "b"] followed by stage ["c"]: node a may continue on
error, node b may not, node c is an ordinary follow-up node. -/
def c1_pipeline_nodes : List PipelineNode :=
  [{ id := "a", name := "A", type := NodeType.build, config := [],
     continue_on_error := true },
   { id := "b", name := "B", type := NodeType.build, config := [] },
   { id := "c", name := "C", type := NodeType.build, config := [] }]

/-- A settled _execute_stage outcome: within the launched stage, node c
completes and every other node fails. -/
def c1_exec_stage (t : List (String × NodeExecution)) (ids : List String) :
    List (String × NodeExecution) :=
  t.map (fun pr =>
    if pr.1 ∈ ids then
      (pr.1,
        { pr.2 with
            status := if pr.1 = "c" then ExecutionStatus.completed
                      else ExecutionStatus.failed,
            error_message := if pr.1 = "c" then Option.none
                             else some "boom" })
    else pr)

/-- A two-node pipeline whose connections form the cycle a to b to a. -/
def c4_cyclic_pipeline : Pipeline :=
  { config_id := "p", created_at := 0, updated_at := 0,
    nodes := [{ id := "a", name := "A", type := NodeType.build,
                config := [] },
              { id := "b", name := "B", type := NodeType.build,
                config := [] }],
    connections := [("a", "b"), ("b", "a")] }

/-- The queued execution of the two-stage pipeline above. -/
def c1_execution : PipelineExecution :=
  { execution_id := "e1", pipeline_id := "p1", pipeline_name := "P",
    status := ExecutionStatus.queued, started_at := 0,
    node_executions :=
      [("a", { node_id := "a", node_name := "A",
               status := ExecutionStatus.pending }),
       ("b", { node_id := "b", node_name := "B",
               status := ExecutionStatus.pending }),
       ("c", { node_id := "c", node_name := "C",
               status := ExecutionStatus.pending })],
    execution_order := [["a", "b"], ["c"]],
    total_stages := 2 }

end PipelineEngine

namespace PipelineEngine

/- ==================================================================
Theorems
================================================================== -/

/-- Helper: add_entry never grows the buffer beyond max_size. -/
theorem add_entry_length_le {α : Type} (max_size : Nat) (entries : List α)
    (e : α) (h : entries.length ≤ max_size) :
    (add_entry max_size entries e).length ≤ max_size := by
  unfold add_entry
  split
  · simp
  · split
    · simp only [List.length_append, List.length_cons, List.length_nil]
      omega
    · simp only [List.length_append, List.length_drop, List.length_cons,
        List.length_nil]
      omega

/-- Helper: a buffer built by addAll holds exactly the last
min(n, max_size) entries in insertion order. -/
theorem addAll_eq_drop {α : Type} (max_size : Nat) (es : List α) :
    addAll max_size es = es.drop (es.length - max_size) := by
  induction es using List.reverseRecOn with
  | nil => simp [addAll]
  | append_singleton xs x ih =>
    have hstep : addAll max_size (xs ++ [x])
        = add_entry max_size (addAll max_size xs) x := by
      simp [addAll]
    rw [hstep, ih]
    unfold add_entry
    by_cases h0 : max_size = 0
    · rw [if_pos h0, eq_comm, List.drop_eq_nil_iff]
      simp [h0]
    · rw [if_neg h0]
      by_cases hlt : xs.length < max_size
      · rw [show xs.length - max_size = 0 by omega, List.drop_zero,
          if_pos hlt,
          show (xs ++ [x]).length - max_size = 0 by simp; omega,
          List.drop_zero]
      · have hge : max_size ≤ xs.length := Nat.le_of_not_lt hlt
        have hdl : (xs.drop (xs.length - max_size)).length = max_size := by
          simp; omega
        rw [if_neg (by rw [hdl]; exact Nat.lt_irrefl _)]
        rw [List.drop_drop,
          List.drop_append_of_le_length
            (show (xs ++ [x]).length - max_size ≤ xs.length by simp; omega),
          show (xs ++ [x]).length - max_size = xs.length - max_size + 1
            by simp; omega]

/-- C8: for every sequence of add_entry calls on a LogBuffer of capacity
max_size, the buffer never holds more than max_size entries; it always
holds the most recent min(n, max_size) entries in insertion order (the
suffix of the added sequence); and adding to a full buffer evicts
exactly the oldest buffered entry, strictly FIFO. -/
theorem c8_log_buffer_capacity_and_fifo {α : Type} (max_size : Nat)
    (es : List α) (e : α) :
    (addAll max_size es).length ≤ max_size
    ∧ addAll max_size es = es.drop (es.length - max_size)
    ∧ ((addAll max_size es).length = max_size → 0 < max_size →
        add_entry max_size (addAll max_size es) e
          = (addAll max_size es).drop 1 ++ [e]) := by
  refine ⟨?_, addAll_eq_drop _ _, ?_⟩
  · rw [addAll_eq_drop]
    simp only [List.length_drop]
    omega
  · intro hfull hpos
    unfold add_entry
    rw [if_neg (by omega), if_neg (by rw [hfull]; exact Nat.lt_irrefl _)]

/-- Witness for C8 at a concrete buffer of capacity 2. -/
theorem c8_log_buffer_capacity_and_fifo_witness :
    (addAll 2 [10, 20, 30]).length ≤ 2
    ∧ addAll 2 [10, 20, 30] = [20, 30]
    ∧ add_entry 2 (addAll 2 [10, 20, 30]) 40
        = (addAll 2 [10, 20, 30]).drop 1 ++ [40] := by
  have h := c8_log_buffer_capacity_and_fifo 2 [10, 20, 30] 40
  exact ⟨h.1, h.2.1.trans (by decide), h.2.2 (by decide) (by decide)⟩

/-- C9: connect_nodes returns False and leaves the pipeline unchanged
when either endpoint does not name an existing node or the connection
already exists; otherwise it appends the single connection, records the
dependency on the first node with the target id (without duplicating
it), stamps updated_at, and returns True. -/
theorem c9_connect_nodes_spec (p : Pipeline) (f t : String) (now : Nat) :
    (((∀ n ∈ p.nodes, n.id ≠ f) ∨ (∀ n ∈ p.nodes, n.id ≠ t) ∨
        (f, t) ∈ p.connections) →
      connect_nodes p f t now = (p, false))
    ∧ ((∃ n ∈ p.nodes, n.id = f) → (∃ n ∈ p.nodes, n.id = t) →
      (f, t) ∉ p.connections →
      connect_nodes p f t now =
        ({ p with
            connections := p.connections ++ [(f, t)],
            nodes := updateFirstNode p.nodes t (fun n =>
              if f ∈ n.dependencies then n
              else { n with dependencies := n.dependencies ++ [f] }),
            updated_at := now }, true)) := by
  have hdup : (p.connections.any (fun c => decide (c.1 = f ∧ c.2 = t))) = true ↔
      (f, t) ∈ p.connections := by
    rw [List.any_eq_true]
    constructor
    · rintro ⟨c, hc, hct⟩
      rcases of_decide_eq_true hct with ⟨h1, h2⟩
      cases c
      cases h1
      cases h2
      exact hc
    · intro hmem
      exact ⟨(f, t), hmem, by simp⟩
  constructor
  · intro h
    rcases h with h | h | h
    · have hf : p.nodes.find? (fun n => decide (n.id = f)) = Option.none := by
        rw [List.find?_eq_none]
        intro n hn
        simpa using h n hn
      simp only [connect_nodes, hf]
    · have ht : p.nodes.find? (fun n => decide (n.id = t)) = Option.none := by
        rw [List.find?_eq_none]
        intro n hn
        simpa using h n hn
      simp only [connect_nodes, ht]
      cases p.nodes.find? (fun n => decide (n.id = f)) <;> rfl
    · rcases hf : p.nodes.find? (fun n => decide (n.id = f)) with _ | fn
      · simp only [connect_nodes, hf]
      · rcases ht : p.nodes.find? (fun n => decide (n.id = t)) with _ | tn
        · simp only [connect_nodes, hf, ht]
        · simp only [connect_nodes, hf, ht]
          rw [if_pos (hdup.mpr h)]
  · intro hf ht hmem
    rcases hf with ⟨fn, hfn, hfid⟩
    rcases ht with ⟨tn, htn, htid⟩
    have hf2 : (p.nodes.find? (fun n => decide (n.id = f))).isSome := by
      rw [List.find?_isSome]
      exact ⟨fn, hfn, by simpa using hfid⟩
    have ht2 : (p.nodes.find? (fun n => decide (n.id = t))).isSome := by
      rw [List.find?_isSome]
      exact ⟨tn, htn, by simpa using htid⟩
    rcases hfe : p.nodes.find? (fun n => decide (n.id = f)) with _ | fn2
    · rw [hfe] at hf2
      exact absurd hf2 (by simp)
    · rcases hte : p.nodes.find? (fun n => decide (n.id = t)) with _ | tn2
      · rw [hte] at ht2
        exact absurd ht2 (by simp)
      · simp only [connect_nodes, hfe, hte]
        rw [if_neg (fun hc => hmem (hdup.mp hc))]

/-- Witness for C9: concretely connecting two nodes succeeds, and
connecting to a missing node id fails and leaves the pipeline intact. -/
theorem c9_connect_nodes_spec_witness :
    (connect_nodes
      { config_id := "p", created_at := 0, updated_at := 0,
        nodes := [{ id := "a", name := "A", type := NodeType.source, config := [] },
                  { id := "b", name := "B", type := NodeType.build, config := [] }],
        connections := [] } "a" "b" 9).2 = true
    ∧ connect_nodes
      { config_id := "p", created_at := 0, updated_at := 0,
        nodes := [{ id := "a", name := "A", type := NodeType.source, config := [] },
                  { id := "b", name := "B", type := NodeType.build, config := [] }],
        connections := [] } "a" "zz" 9 =
      ({ config_id := "p", created_at := 0, updated_at := 0,
         nodes := [{ id := "a", name := "A", type := NodeType.source, config := [] },
                   { id := "b", name := "B", type := NodeType.build, config := [] }],
         connections := [] }, false) := by
  constructor
  · rw [(c9_connect_nodes_spec _ "a" "b" 9).2
      ⟨{ id := "a", name := "A", type := NodeType.source, config := [] },
        by simp, rfl⟩
      ⟨{ id := "b", name := "B", type := NodeType.build, config := [] },
        by simp, rfl⟩
      (by simp)]
  · exact (c9_connect_nodes_spec _ "a" "zz" 9).1
      (Or.inr (Or.inl (by intro n hn; fin_cases hn <;> simp)))

/-- C6: evaluation of the monitoring loop at a failing input.  The table
holds one terminal execution (status COMPLETED) whose completed_at (0)
is more than one hour older than now (7200): the claim requires the
iteration to remove it.  The is_completed attribute access on
PipelineExecution raises AttributeError, the except clause swallows it,
and the iteration keeps the execution. -/
theorem c6_reaper_attribute_error :
    monitoring_to_remove 7200 [("e1", c6_execution)]
      = Except.error "AttributeError: PipelineExecution has no attribute is_completed"
    ∧ monitoring_loop_iteration 7200 [("e1", c6_execution)]
      = [("e1", c6_execution)]
    ∧ c6_execution.status = ExecutionStatus.completed
    ∧ c6_execution.completed_at = some 0
    ∧ 0 < 7200 - 3600 := by
  exact ⟨rfl, rfl, rfl, rfl, by decide⟩

/-- C5: dependency gating.  _are_dependencies_satisfied holds iff every
dependency id has a NodeExecution in the table with status COMPLETED;
when it fails the node resolves Skipped with the explanatory message and
the work is never invoked (zero attempts); when it holds the node is set
Running and the work is invoked (at least one attempt). -/
theorem c5_dependency_gating (t : List (String × NodeExecution))
    (node : PipelineNode) (ne : NodeExecution) (now : Nat)
    (work : Int → WorkOutcome) :
    (are_dependencies_satisfied t node = true ↔
      ∀ d ∈ node.dependencies, ∃ de, alookup t d = some de ∧
        de.status = ExecutionStatus.completed)
    ∧ (are_dependencies_satisfied t node = false →
        execute_node work (are_dependencies_satisfied t node) node now ne
          = ({ ne with
                status := ExecutionStatus.skipped,
                error_message := some "Dependencies not satisfied" }, 0))
    ∧ (are_dependencies_satisfied t node = true →
        0 < (execute_node work (are_dependencies_satisfied t node) node now ne).2) := by
  refine ⟨?_, ?_, ?_⟩
  · rw [are_dependencies_satisfied, List.all_eq_true]
    constructor
    · intro h d hd
      have := h d hd
      rcases ha : alookup t d with _ | de
      · rw [ha] at this
        exact absurd this (by simp)
      · rw [ha] at this
        exact ⟨de, rfl, by simpa using this⟩
    · intro h d hd
      rcases h d hd with ⟨de, hde, hst⟩
      rw [hde]
      simpa using hst
  · intro h
    rw [h, execute_node]
    rfl
  · intro h
    rw [h, execute_node]
    rw [if_neg (show ¬((!true : Bool) = true) by decide)]
    dsimp only
    cases work ne.retry_count with
    | ok => exact Nat.one_pos
    | timesOut => exact Nat.one_pos
    | err m =>
      dsimp only
      split
      · exact Nat.succ_pos _
      · exact Nat.one_pos

/-- Witness for C5: a node with a completed dependency runs its work; a
node with a missing dependency entry is skipped without running. -/
theorem c5_dependency_gating_witness :
    (are_dependencies_satisfied
        [("d", { node_id := "d", node_name := "D",
                 status := ExecutionStatus.completed })]
        { id := "x", name := "X", type := NodeType.build, config := [],
          dependencies := ["d"] } = true →
      0 < (execute_node (fun _ => WorkOutcome.ok)
        (are_dependencies_satisfied
          [("d", { node_id := "d", node_name := "D",
                   status := ExecutionStatus.completed })]
          { id := "x", name := "X", type := NodeType.build, config := [],
            dependencies := ["d"] })
        { id := "x", name := "X", type := NodeType.build, config := [],
          dependencies := ["d"] } 0
        { node_id := "x", node_name := "X",
          status := ExecutionStatus.pending }).2)
    ∧ 0 < (execute_node (fun _ => WorkOutcome.ok)
        (are_dependencies_satisfied
          [("d", { node_id := "d", node_name := "D",
                   status := ExecutionStatus.completed })]
          { id := "x", name := "X", type := NodeType.build, config := [],
            dependencies := ["d"] })
        { id := "x", name := "X", type := NodeType.build, config := [],
          dependencies := ["d"] } 0
        { node_id := "x", node_name := "X",
          status := ExecutionStatus.pending }).2
    ∧ execute_node (fun _ => WorkOutcome.ok)
        (are_dependencies_satisfied []
          { id := "y", name := "Y", type := NodeType.build, config := [],
            dependencies := ["d"] })
        { id := "y", name := "Y", type := NodeType.build, config := [],
          dependencies := ["d"] } 0
        { node_id := "y", node_name := "Y",
          status := ExecutionStatus.pending }
      = ({ node_id := "y", node_name := "Y",
           status := ExecutionStatus.skipped,
           error_message := some "Dependencies not satisfied" }, 0) := by
  have h1 := (c5_dependency_gating
    [("d", { node_id := "d", node_name := "D",
             status := ExecutionStatus.completed })]
    { id := "x", name := "X", type := NodeType.build, config := [],
      dependencies := ["d"] }
    { node_id := "x", node_name := "X", status := ExecutionStatus.pending }
    0 (fun _ => WorkOutcome.ok)).2.2
  have h2 := (c5_dependency_gating []
    { id := "y", name := "Y", type := NodeType.build, config := [],
      dependencies := ["d"] }
    { node_id := "y", node_name := "Y", status := ExecutionStatus.pending }
    0 (fun _ => WorkOutcome.ok)).2.1
  exact ⟨fun _ => h1 (by decide), h1 (by decide), (h2 (by decide)).trans (by rfl)⟩

/-- C10: a node whose work outruns the timeout resolves Timeout with the
explanatory message; the asyncio.TimeoutError clause precedes the
generic retry clause, so no retry attempt is consumed (the retry counter
is unchanged and exactly one attempt runs) even when node.retry_count
exceeds zero. -/
theorem c10_timeout_skips_retry (work : Int → WorkOutcome)
    (node : PipelineNode) (ne : NodeExecution) (now : Nat)
    (h : work ne.retry_count = WorkOutcome.timesOut) :
    execute_node work true node now ne
      = ({ ne with
            status := ExecutionStatus.timeout,
            started_at := some now,
            error_message :=
              some ("Node timed out after " ++ toString node.timeout
                ++ " seconds"),
            completed_at := some now, duration := some 0 }, 1) := by
  rw [execute_node]
  simp [h]

/-- Witness for C10 at a node with retry budget 3: the timeout outcome
ends the node after one attempt with the counter still 0. -/
theorem c10_timeout_skips_retry_witness :
    execute_node (fun _ => WorkOutcome.timesOut) true
      { id := "x", name := "X", type := NodeType.build, config := [],
        timeout := 5, retry_count := 3 } 7
      { node_id := "x", node_name := "X", status := ExecutionStatus.pending }
      = ({ node_id := "x", node_name := "X",
           status := ExecutionStatus.timeout,
           started_at := some 7,
           error_message := some "Node timed out after 5 seconds",
           completed_at := some 7, duration := some 0 }, 1) := by
  rw [c10_timeout_skips_retry (fun _ => WorkOutcome.timesOut)
    { id := "x", name := "X", type := NodeType.build, config := [],
      timeout := 5, retry_count := 3 }
    { node_id := "x", node_name := "X", status := ExecutionStatus.pending }
    7 rfl]
  rfl

/-- Helper for C3: with dependencies satisfied and a work oracle that
raises a step error on every attempt, _execute_node retries until the
counter reaches node.retry_count, mutating the same NodeExecution, and
resolves Failed with the last error; the attempt count is the remaining
retry budget plus one. -/
theorem execute_node_err_all (m : Int → String) (node : PipelineNode)
    (now : Nat) :
    ∀ (ne : NodeExecution), ne.retry_count ≤ node.retry_count →
      (execute_node (fun k => WorkOutcome.err (m k)) true node now ne).1.status
          = ExecutionStatus.failed
      ∧ (execute_node (fun k => WorkOutcome.err (m k)) true node now ne).1.error_message
          = some (m node.retry_count)
      ∧ (execute_node (fun k => WorkOutcome.err (m k)) true node now ne).1.retry_count
          = node.retry_count
      ∧ (execute_node (fun k => WorkOutcome.err (m k)) true node now ne).2
          = (node.retry_count - ne.retry_count).toNat + 1 := by
  suffices H : ∀ (fuel : Nat) (ne : NodeExecution),
      ne.retry_count ≤ node.retry_count →
      (node.retry_count - ne.retry_count).toNat = fuel →
      (execute_node (fun k => WorkOutcome.err (m k)) true node now ne).1.status
          = ExecutionStatus.failed
      ∧ (execute_node (fun k => WorkOutcome.err (m k)) true node now ne).1.error_message
          = some (m node.retry_count)
      ∧ (execute_node (fun k => WorkOutcome.err (m k)) true node now ne).1.retry_count
          = node.retry_count
      ∧ (execute_node (fun k => WorkOutcome.err (m k)) true node now ne).2
          = (node.retry_count - ne.retry_count).toNat + 1 by
    intro ne hle
    exact H (node.retry_count - ne.retry_count).toNat ne hle rfl
  intro fuel
  induction fuel with
  | zero =>
    intro ne hle hf
    have heq : ne.retry_count = node.retry_count := by omega
    rw [execute_node]
    rw [if_neg (show ¬((!true : Bool) = true) by decide)]
    dsimp only
    rw [dif_neg (show ¬(ne.retry_count < node.retry_count) by omega)]
    refine ⟨rfl, ?_, ?_, ?_⟩
    · show some (m ne.retry_count) = some (m node.retry_count)
      rw [heq]
    · exact heq
    · show 1 = (node.retry_count - ne.retry_count).toNat + 1
      omega
  | succ fuel ih =>
    intro ne hle hf
    have hlt : ne.retry_count < node.retry_count := by omega
    rw [execute_node]
    rw [if_neg (show ¬((!true : Bool) = true) by decide)]
    dsimp only
    rw [dif_pos (show ne.retry_count < node.retry_count from hlt)]
    have hrec := ih
      { ne with
          status := ExecutionStatus.failed,
          started_at := some now,
          error_message := some (m ne.retry_count),
          retry_count := ne.retry_count + 1 }
      (show ne.retry_count + 1 ≤ node.retry_count by omega)
      (show (node.retry_count - (ne.retry_count + 1)).toNat = fuel by omega)
    refine ⟨hrec.1, hrec.2.1, hrec.2.2.1, ?_⟩
    show (execute_node (fun k => WorkOutcome.err (m k)) true node now
      { ne with
          status := ExecutionStatus.failed,
          started_at := some now,
          error_message := some (m ne.retry_count),
          retry_count := ne.retry_count + 1 }).2 + 1
      = (node.retry_count - ne.retry_count).toNat + 1
    rw [hrec.2.2.2]
    dsimp only
    omega

/-- C3: a node with retry budget N at least 0 whose work raises a step
error on every attempt runs its work exactly N+1 times (hence at most
N+1), mutating the retry counter of the same NodeExecution up to N, and
finally resolves Failed with the last error captured in error_message. -/
theorem c3_retry_exhaustion (m : Int → String) (node : PipelineNode)
    (ne : NodeExecution) (now : Nat)
    (hN : 0 ≤ node.retry_count) (h0 : ne.retry_count = 0) :
    (execute_node (fun k => WorkOutcome.err (m k)) true node now ne).2
        = node.retry_count.toNat + 1
    ∧ (execute_node (fun k => WorkOutcome.err (m k)) true node now ne).2
        ≤ node.retry_count.toNat + 1
    ∧ (execute_node (fun k => WorkOutcome.err (m k)) true node now ne).1.status
        = ExecutionStatus.failed
    ∧ (execute_node (fun k => WorkOutcome.err (m k)) true node now ne).1.error_message
        = some (m node.retry_count)
    ∧ (execute_node (fun k => WorkOutcome.err (m k)) true node now ne).1.retry_count
        = node.retry_count := by
  have h := execute_node_err_all m node now ne (by omega)
  refine ⟨?_, ?_, h.1, h.2.1, h.2.2.1⟩
  · rw [h.2.2.2, h0]
    simp
  · rw [h.2.2.2, h0]
    simp

/-- Witness for C3 at a node with retry budget 2: exactly three attempts,
final status Failed, counter 2, last error captured. -/
theorem c3_retry_exhaustion_witness :
    (execute_node (fun _ => WorkOutcome.err "E") true
        { id := "x", name := "X", type := NodeType.build, config := [],
          retry_count := 2 } 0
        { node_id := "x", node_name := "X",
          status := ExecutionStatus.pending }).2 = 3
    ∧ (execute_node (fun _ => WorkOutcome.err "E") true
        { id := "x", name := "X", type := NodeType.build, config := [],
          retry_count := 2 } 0
        { node_id := "x", node_name := "X",
          status := ExecutionStatus.pending }).1.status
        = ExecutionStatus.failed
    ∧ (execute_node (fun _ => WorkOutcome.err "E") true
        { id := "x", name := "X", type := NodeType.build, config := [],
          retry_count := 2 } 0
        { node_id := "x", node_name := "X",
          status := ExecutionStatus.pending }).1.error_message = some "E"
    ∧ (execute_node (fun _ => WorkOutcome.err "E") true
        { id := "x", name := "X", type := NodeType.build, config := [],
          retry_count := 2 } 0
        { node_id := "x", node_name := "X",
          status := ExecutionStatus.pending }).1.retry_count = 2 := by
  have h := c3_retry_exhaustion (fun _ => "E")
    { id := "x", name := "X", type := NodeType.build, config := [],
      retry_count := 2 }
    { node_id := "x", node_name := "X", status := ExecutionStatus.pending }
    0 (by decide) rfl
  exact ⟨h.1.trans (by decide), h.2.2.1, h.2.2.2.1, h.2.2.2.2⟩

/-- C1 (amended): after a stage settles with at least one Failed node,
the execution proceeds to the next stage if and only if AT LEAST ONE
Failed node of the stage has continue_on_error = true (the source tests
any, not every); otherwise the loop stops with status Failed, the
aggregate error_message set, and the node-execution table frozen at
this stage, so no node of a later stage is dispatched. -/
theorem c1_amended_continue_on_error_policy
    (pnodes : List PipelineNode)
    (es : List (String × NodeExecution) → List String →
      List (String × NodeExecution))
    (ex : PipelineExecution) (i : Nat) (ids : List String)
    (rest : List (List String))
    (hrun : ex.status = ExecutionStatus.running)
    (hfail : stage_failed (es ex.node_executions ids) ids = true) :
    (continue_execution_check pnodes (es ex.node_executions ids) ids = true ↔
      ∃ nid ∈ ids,
        (∃ ne, alookup (es ex.node_executions ids) nid = some ne ∧
          ne.status = ExecutionStatus.failed) ∧
        (∃ n, pnodes.reverse.find? (fun x => x.id = nid) = some n ∧
          n.continue_on_error = true))
    ∧ (continue_execution_check pnodes (es ex.node_executions ids) ids = true →
        run_stage_loop pnodes es ex i (ids :: rest)
          = run_stage_loop pnodes es
              { ex with
                  current_stage := i,
                  node_executions := es ex.node_executions ids } (i + 1) rest)
    ∧ (continue_execution_check pnodes (es ex.node_executions ids) ids = false →
        run_stage_loop pnodes es ex i (ids :: rest)
          = { ex with
              current_stage := i,
              node_executions := es ex.node_executions ids,
              status := ExecutionStatus.failed,
              error_message := some "Pipeline failed due to node failures" }) := by
  refine ⟨?_, ?_, ?_⟩
  · rw [continue_execution_check, List.any_eq_true]
    constructor
    · rintro ⟨nid, hnid, hb⟩
      rw [Bool.and_eq_true] at hb
      refine ⟨nid, hnid, ?_, ?_⟩
      · rcases ha : alookup (es ex.node_executions ids) nid with _ | ne
        · rw [ha] at hb
          exact absurd hb.1 (by simp)
        · rw [ha] at hb
          exact ⟨ne, rfl, by simpa using hb.1⟩
      · rcases hfind : pnodes.reverse.find? (fun x => decide (x.id = nid))
          with _ | n
        · rw [hfind] at hb
          exact absurd hb.2 (by simp)
        · rw [hfind] at hb
          exact ⟨n, hfind, hb.2⟩
    · rintro ⟨nid, hnid, ⟨ne, hne, hst⟩, ⟨n, hn, hcoe⟩⟩
      refine ⟨nid, hnid, ?_⟩
      rw [Bool.and_eq_true, hne, hn]
      exact ⟨by simpa using hst, hcoe⟩
  · intro hcont
    rw [run_stage_loop]
    dsimp only
    rw [if_neg (show ¬(ex.status = ExecutionStatus.cancelled) by
      rw [hrun]; intro hc; cases hc)]
    rw [if_neg (show ¬((stage_failed (es ex.node_executions ids) ids
        && !continue_execution_check pnodes (es ex.node_executions ids) ids)
        = true) by rw [hfail, hcont]; decide)]
  · intro hcont
    rw [run_stage_loop]
    dsimp only
    rw [if_neg (show ¬(ex.status = ExecutionStatus.cancelled) by
      rw [hrun]; intro hc; cases hc)]
    rw [if_pos (show (stage_failed (es ex.node_executions ids) ids
        && !continue_execution_check pnodes (es ex.node_executions ids) ids)
        = true by rw [hfail, hcont]; decide)]

/-- Witness for the amended C1 at the concrete two-stage pipeline: the
first stage fails with node a allowed to continue, so the loop proceeds
to stage ["c"]. -/
theorem c1_amended_continue_on_error_policy_witness :
    run_stage_loop c1_pipeline_nodes c1_exec_stage
        { c1_execution with status := ExecutionStatus.running } 0
        (["a", "b"] :: [["c"]])
      = run_stage_loop c1_pipeline_nodes c1_exec_stage
          { { c1_execution with status := ExecutionStatus.running } with
              current_stage := 0,
              node_executions :=
                c1_exec_stage
                  ({ c1_execution with
                      status := ExecutionStatus.running }).node_executions
                  ["a", "b"] }
          (0 + 1) [["c"]] :=
  (c1_amended_continue_on_error_policy c1_pipeline_nodes c1_exec_stage
    { c1_execution with status := ExecutionStatus.running } 0 ["a", "b"]
    [["c"]] rfl (by decide)).2.1 (by decide)

/-- C1 counterexample: in the concrete two-stage execution, stage
["a", "b"] settles with both nodes Failed, where a has
continue_on_error = true and b does not.  The claim as stated requires
the execution to resolve Failed with its error_message set and stage
["c"] withheld, because not every Failed node may continue; the code
instead proceeds (any suffices), dispatches c, and resolves the
execution Completed with no error message. -/
theorem c1_counterexample :
    (start_execution c1_pipeline_nodes c1_exec_stage 5 c1_execution).status
        = ExecutionStatus.completed
    ∧ (start_execution c1_pipeline_nodes c1_exec_stage 5 c1_execution).error_message
        = Option.none
    ∧ ((alookup (start_execution c1_pipeline_nodes c1_exec_stage 5
          c1_execution).node_executions "b").map (fun ne => ne.status)
        = some ExecutionStatus.failed)
    ∧ ((alookup (start_execution c1_pipeline_nodes c1_exec_stage 5
          c1_execution).node_executions "c").map (fun ne => ne.status)
        = some ExecutionStatus.completed)
    ∧ ((c1_pipeline_nodes.reverse.find? (fun n => n.id = "b")).map
        (fun n => n.continue_on_error) = some false)
    ∧ ((c1_pipeline_nodes.reverse.find? (fun n => n.id = "a")).map
        (fun n => n.continue_on_error) = some true) := by
  exact ⟨rfl, rfl, rfl, rfl, rfl, rfl⟩

/-- Helper: a key that alookup misses is absent from the dict. -/
theorem hasKey_eq_false_of_alookup_none {α : Type} (l : List (String × α))
    (k : String) (h : alookup l k = Option.none) : hasKey l k = false := by
  unfold alookup at h
  rcases hf : l.find? (fun p => p.1 = k) with _ | p
  · rw [hasKey, List.any_eq_false]
    intro x hx
    have := List.find?_eq_none.mp hf x hx
    simpa using this
  · rw [hf] at h
    simp at h

/-- Helper: every result of _validate_unused_config is Info-level. -/
theorem validate_unused_config_all_info (node : PipelineNode)
    (req opt : List String) :
    ∀ r ∈ validate_unused_config node req opt,
      r.level = ValidationLevel.info := by
  intro r hr
  rw [validate_unused_config, List.mem_flatMap] at hr
  rcases hr with ⟨kv, _, hin⟩
  split at hin
  · rw [List.mem_singleton] at hin
    rw [hin]
  · exact absurd hin (List.not_mem_nil r)

/-- C7 (amended): a Deploy node whose config sets target_environment to
"production" and rollback_enabled to True, carries a non-empty
pattern-conformant deploy_command, lacks the health_check_url key, whose
optional timeout and strategy entries (when present) are type-, range-
and pattern-conformant, and whose node timeout lies in (0, 7200],
validates (without pipeline context) to exactly one Warning-level
result - the health-check suggestion - and is_valid = true.  (The
unamended claim omits rollback_enabled: without it the rollback Warning
fires as well, see the counterexample.) -/
theorem c7_amended_deploy_production_warning
    (node : PipelineNode)
    (hty : node.type = NodeType.deploy)
    (henv : alookup node.config "target_environment"
      = some (PyVal.str "production"))
    (hcmd : ∃ s, alookup node.config "deploy_command" = some (PyVal.str s)
      ∧ dot_plus_pattern s = true)
    (hhealth : alookup node.config "health_check_url" = Option.none)
    (hroll : alookup node.config "rollback_enabled" = some (PyVal.bool true))
    (htime : alookup node.config "timeout" = Option.none ∨
      ∃ n : Int, alookup node.config "timeout" = some (PyVal.int n)
        ∧ 30 ≤ n ∧ n ≤ 3600)
    (hstrat : alookup node.config "strategy" = Option.none ∨
      ∃ s, alookup node.config "strategy" = some (PyVal.str s)
        ∧ deploy_strategy_pattern s = true)
    (hnt : 0 < node.timeout ∧ node.timeout ≤ 7200) :
    (validate_node_deploy node Option.none).results.filter
        (fun r => r.level == ValidationLevel.warning)
      = [{ level := ValidationLevel.warning,
           message := "Production deployment should include health checks",
           suggestion := some "Add health_check_url configuration" }]
    ∧ (validate_node_deploy node Option.none).is_valid = true := by
  rcases hcmd with ⟨cmd, hc, hcp⟩
  have hcne : cmd ≠ "" := by
    intro h
    rw [h] at hcp
    exact absurd hcp (by decide)
  have hcb : (cmd == "") = false := beq_eq_false_iff_ne.mpr hcne
  have h1 : validate_required_fields node deploy_required_fields = [] := by
    simp [validate_required_fields, deploy_required_fields, henv, hc,
      PyVal.truthy, hcb]
  have h2 : validate_field_types node deploy_field_types = [] := by
    rcases htime with ht | ⟨n, ht, _, _⟩ <;>
      rcases hstrat with hs | ⟨s, hs, _⟩ <;>
      simp [validate_field_types, deploy_field_types, henv, hc, hhealth,
        hroll, ht, hs, isinst]
  have h3 : validate_field_patterns node deploy_field_patterns = [] := by
    rcases hstrat with hs | ⟨s, hs, hsp⟩
    · simp [validate_field_patterns, deploy_field_patterns, henv, hc,
        hhealth, hs, hcp, PyVal.pyStr, deploy_env_pattern]
    · simp [validate_field_patterns, deploy_field_patterns, henv, hc,
        hhealth, hs, hsp, hcp, PyVal.pyStr, deploy_env_pattern]
  have h4 : validate_field_ranges node deploy_field_ranges = [] := by
    rcases htime with ht | ⟨n, ht, hlo, hhi⟩
    · simp [validate_field_ranges, deploy_field_ranges, ht]
    · simp [validate_field_ranges, deploy_field_ranges, ht, PyVal.pyFloat]
      omega
  have h6 : validate_deploy_node node =
      [{ level := ValidationLevel.warning,
         message := "Production deployment should include health checks",
         suggestion := some "Add health_check_url configuration" }] := by
    simp only [validate_deploy_node, henv]
    rw [hasKey_eq_false_of_alookup_none _ _ hhealth, hroll]
    decide
  have h7 : validate_timeout_settings node = [] := by
    rw [validate_timeout_settings, if_neg (by omega), if_neg (by omega)]
  have h8w : (validate_unused_config node deploy_required_fields
      deploy_optional_fields).filter
        (fun r => r.level == ValidationLevel.warning) = [] := by
    rw [List.filter_eq_nil_iff]
    intro r hr
    rw [validate_unused_config_all_info node _ _ r hr]
    decide
  have h8e : (validate_unused_config node deploy_required_fields
      deploy_optional_fields).any
        (fun r => r.level == ValidationLevel.error) = false := by
    rw [List.any_eq_false]
    intro r hr
    rw [validate_unused_config_all_info node _ _ r hr]
    decide
  have hres : validate_node_deploy_results node Option.none
      = validate_required_fields node deploy_required_fields
        ++ validate_field_types node deploy_field_types
        ++ validate_field_patterns node deploy_field_patterns
        ++ validate_field_ranges node deploy_field_ranges
        ++ []
        ++ validate_deploy_node node
        ++ validate_timeout_settings node
        ++ validate_unused_config node deploy_required_fields
            deploy_optional_fields := rfl
  constructor
  · have hproj : (validate_node_deploy node Option.none).results
        = validate_node_deploy_results node Option.none := rfl
    rw [hproj, hres, h1, h2, h3, h4, h6, h7]
    simp only [List.nil_append, List.append_nil, List.filter_append, h8w,
      List.append_nil]
    decide
  · have hproj : (validate_node_deploy node Option.none).is_valid
        = !((validate_node_deploy_results node Option.none).any
          (fun r => r.level == ValidationLevel.error)) := rfl
    rw [hproj, hres, h1, h2, h3, h4, h6, h7]
    simp only [List.nil_append, List.append_nil, List.any_append, h8e,
      Bool.or_false]
    decide

/-- Witness for the amended C7 at a fully concrete production Deploy
node with rollback enabled. -/
theorem c7_amended_deploy_production_warning_witness :
    (validate_node_deploy
        { id := "d1", name := "Deploy", type := NodeType.deploy,
          config := [("target_environment", PyVal.str "production"),
                     ("deploy_command", PyVal.str "make deploy"),
                     ("rollback_enabled", PyVal.bool true),
                     ("timeout", PyVal.int 60),
                     ("strategy", PyVal.str "rolling")] }
        Option.none).results.filter
        (fun r => r.level == ValidationLevel.warning)
      = [{ level := ValidationLevel.warning,
           message := "Production deployment should include health checks",
           suggestion := some "Add health_check_url configuration" }]
    ∧ (validate_node_deploy
        { id := "d1", name := "Deploy", type := NodeType.deploy,
          config := [("target_environment", PyVal.str "production"),
                     ("deploy_command", PyVal.str "make deploy"),
                     ("rollback_enabled", PyVal.bool true),
                     ("timeout", PyVal.int 60),
                     ("strategy", PyVal.str "rolling")] }
        Option.none).is_valid = true :=
  c7_amended_deploy_production_warning
    { id := "d1", name := "Deploy", type := NodeType.deploy,
      config := [("target_environment", PyVal.str "production"),
                 ("deploy_command", PyVal.str "make deploy"),
                 ("rollback_enabled", PyVal.bool true),
                 ("timeout", PyVal.int 60),
                 ("strategy", PyVal.str "rolling")] }
    rfl rfl ⟨"make deploy", rfl, by decide⟩ rfl rfl
    (Or.inr ⟨60, rfl, by decide, by decide⟩)
    (Or.inr ⟨"rolling", rfl, by decide⟩)
    ⟨by decide, by decide⟩

/-- C7 counterexample: the minimal production Deploy node of the claim -
required fields present, non-empty and conformant, health_check_url
absent - but without rollback_enabled in its config.  validate_node
yields TWO Warning-level results (health check and rollback), not
exactly one; is_valid is still true. -/
theorem c7_counterexample :
    ((validate_node_deploy
        { id := "d1", name := "Deploy", type := NodeType.deploy,
          config := [("target_environment", PyVal.str "production"),
                     ("deploy_command", PyVal.str "make deploy")] }
        Option.none).results.filter
        (fun r => r.level == ValidationLevel.warning)).length = 2
    ∧ (validate_node_deploy
        { id := "d1", name := "Deploy", type := NodeType.deploy,
          config := [("target_environment", PyVal.str "production"),
                     ("deploy_command", PyVal.str "make deploy")] }
        Option.none).is_valid = true := by
  constructor
  · decide
  · decide

/- ==================================================================
Kahn staging: counting infrastructure
================================================================== -/

/-- Counting a disjunction of pointwise exclusive predicates splits. -/
theorem countP_or_disjoint {α : Type} {l : List α} {p q : α → Bool}
    (h : ∀ a ∈ l, ¬(p a = true ∧ q a = true)) :
    l.countP (fun a => p a || q a) = l.countP p + l.countP q := by
  induction l with
  | nil => simp
  | cons a t ih =>
    have ht : ∀ x ∈ t, ¬(p x = true ∧ q x = true) :=
      fun x hx => h x (List.mem_cons_of_mem a hx)
    have ha := h a (List.mem_cons_self a t)
    rw [List.countP_cons, List.countP_cons, List.countP_cons, ih ht]
    rcases hp : p a <;> rcases hq : q a <;> simp_all <;> omega

/-- Counts of pointwise comparable predicates agree exactly when no
element separates them. -/
theorem countP_eq_iff_of_imp {α : Type} {l : List α} {p q : α → Bool}
    (himp : ∀ a ∈ l, p a = true → q a = true) :
    l.countP p = l.countP q ↔ ∀ a ∈ l, q a = true → p a = true := by
  have hsplit : l.countP q
      = l.countP p + l.countP (fun a => q a && !p a) := by
    have hcongr : ∀ a ∈ l,
        (q a = true ↔ (fun a => p a || (q a && !p a)) a = true) := by
      intro a ha
      rcases hp : p a
      · simp [hp]
      · simp [hp, himp a ha hp]
    rw [List.countP_congr hcongr,
      countP_or_disjoint (by
        intro a _ hcontra
        rcases hcontra with ⟨h1, h2⟩
        rw [Bool.and_eq_true] at h2
        rw [h1] at h2
        simp at h2)]
  constructor
  · intro h a ha hqa
    have h0 : l.countP (fun a => q a && !p a) = 0 := by omega
    rw [List.countP_eq_zero] at h0
    have hna := h0 a ha
    rcases hp : p a
    · exact absurd (by simp [hqa, hp]) hna
    · rfl
  · intro h
    have h0 : l.countP (fun a => q a && !p a) = 0 := by
      rw [List.countP_eq_zero]
      intro a ha hcontra
      rw [Bool.and_eq_true] at hcontra
      have := h a ha hcontra.1
      rw [this] at hcontra
      simp at hcontra
    omega

/-- edgesFrom of the empty source set is zero. -/
theorem edgesFrom_nil (conns : List (String × String)) (v : String) :
    edgesFrom conns [] v = 0 := by
  rw [edgesFrom, List.countP_eq_zero]
  intro c _
  simp

/-- edgesFrom never exceeds the in-degree. -/
theorem edgesFrom_le_indegN (conns : List (String × String))
    (S : List String) (v : String) :
    edgesFrom conns S v ≤ indegN conns v := by
  apply List.countP_mono_left
  intro c _ hc
  rw [Bool.and_eq_true] at hc
  exact hc.1

/-- edgesFrom is monotone in the source set. -/
theorem edgesFrom_mono (conns : List (String × String))
    {S T : List String} (hsub : ∀ x ∈ S, x ∈ T) (v : String) :
    edgesFrom conns S v ≤ edgesFrom conns T v := by
  apply List.countP_mono_left
  intro c _ hc
  rw [Bool.and_eq_true] at hc ⊢
  exact ⟨hc.1, by
    have := of_decide_eq_true hc.2
    exact decide_eq_true (hsub _ this)⟩

/-- edgesFrom splits over an append of disjoint source sets. -/
theorem edgesFrom_append (conns : List (String × String))
    {D Q : List String} (hdisj : ∀ x ∈ D, x ∉ Q) (v : String) :
    edgesFrom conns (D ++ Q) v = edgesFrom conns D v + edgesFrom conns Q v := by
  rw [edgesFrom]
  have hcongr : ∀ c ∈ conns,
      (((fun c : String × String => c.2 = v && decide (c.1 ∈ D ++ Q)) c) = true
        ↔ ((fun c : String × String =>
            (c.2 = v && decide (c.1 ∈ D)) || (c.2 = v && decide (c.1 ∈ Q))) c)
          = true) := by
    intro c _
    by_cases h2 : c.2 = v <;> by_cases hD : c.1 ∈ D <;> by_cases hQ : c.1 ∈ Q <;>
      simp [h2, hD, hQ, List.mem_append]
  rw [List.countP_congr hcongr]
  rw [countP_or_disjoint]
  · rfl
  · intro c _ hc
    rw [Bool.and_eq_true, Bool.and_eq_true] at hc
    exact hdisj c.1 (of_decide_eq_true hc.1.2) (of_decide_eq_true hc.2.2)

/-- edgesFrom saturates exactly when every in-edge source lies in S. -/
theorem edgesFrom_eq_indegN_iff (conns : List (String × String))
    (S : List String) (v : String) :
    edgesFrom conns S v = indegN conns v ↔
      ∀ c ∈ conns, c.2 = v → c.1 ∈ S := by
  rw [edgesFrom, indegN,
    countP_eq_iff_of_imp (fun c _ hc => (Bool.and_eq_true _ _ |>.mp hc).1)]
  constructor
  · intro h c hc h2
    have := h c hc (by simpa using h2)
    rw [Bool.and_eq_true] at this
    exact of_decide_eq_true this.2
  · intro h c hc h2
    rw [Bool.and_eq_true]
    exact ⟨h2, decide_eq_true (h c hc (by simpa using h2))⟩

/-- The in_degree table built by the source equals the in-edge count. -/
theorem build_in_degree_eq (conns : List (String × String)) (v : String) :
    build_in_degree conns v = (indegN conns v : Int) := by
  suffices H : ∀ (f : String → Int),
      (conns.foldl
        (fun f c => fun w => if w = c.2 then f w + 1 else f w) f) v
        = f v + (indegN conns v : Int) by
    have := H (fun _ => 0)
    rw [build_in_degree, this]
    simp
  induction conns with
  | nil => intro f; simp [indegN]
  | cons c t ih =>
    intro f
    rw [List.foldl_cons, ih]
    have hind : indegN (c :: t) v = indegN t v + (if c.2 = v then 1 else 0) := by
      rw [indegN, indegN, List.countP_cons]
      by_cases h : c.2 = v <;> simp [h]
    rw [hind]
    by_cases h : c.2 = v
    · rw [if_pos h.symm, if_pos h]
      push_cast
      omega
    · rw [if_neg (fun hh => h hh.symm), if_neg h]
      push_cast
      omega

/-- Folding a stage equals folding the concatenation of its adjacency
lists edge by edge. -/
theorem process_stage_eq (conns : List (String × String))
    (stage : List String) (deg : String → Int) :
    process_stage conns stage deg
      = (stage.flatMap (adj conns)).foldl kahn_step1 (deg, []) := by
  suffices H : ∀ (s : (String → Int) × List String) (st : List String),
      st.foldl (process_neighbors conns) s
        = (st.flatMap (adj conns)).foldl kahn_step1 s from H (deg, []) stage
  intro s st
  induction st generalizing s with
  | nil => rfl
  | cons u us ih =>
    rw [List.foldl_cons, List.flatMap_cons, List.foldl_append, ih]
    rfl

/-- The decrement fold over an edge-target list, characterised: the
degree of v drops by the number of occurrences of v consumed, and the
collected queue holds exactly the nodes whose initially positive degree
has been fully consumed, without duplicates. -/
theorem kahn_fold_spec (deg0 : String → Int) (T : List String) :
    (∀ v, (T.foldl kahn_step1 (deg0, [])).1 v
        = deg0 v - (T.count v : Int))
    ∧ (T.foldl kahn_step1 (deg0, [])).2.Nodup
    ∧ (∀ v, v ∈ (T.foldl kahn_step1 (deg0, [])).2 ↔
        (0 < deg0 v ∧ deg0 v ≤ (T.count v : Int))) := by
  induction T using List.reverseRecOn with
  | nil => refine ⟨fun v => by simp, by simp, fun v => by simp⟩
  | append_singleton T w ih =>
    rcases ih with ⟨ihdeg, ihnd, ihmem⟩
    have hfold : (T ++ [w]).foldl kahn_step1 (deg0, [])
        = kahn_step1 (T.foldl kahn_step1 (deg0, [])) w := by
      rw [List.foldl_append]
      rfl
    have hcnt : ∀ v, ((T ++ [w]).count v : Int)
        = (T.count v : Int) + (if v = w then 1 else 0) := by
      intro v
      rw [List.count_append, List.count_singleton']
      by_cases h : v = w
      · rw [if_pos h.symm, if_pos h]
        push_cast
        omega
      · rw [if_neg (fun hh => h hh.symm), if_neg h]
        push_cast
        omega
    rw [hfold, kahn_step1]
    refine ⟨?_, ?_, ?_⟩
    · intro v
      show (if v = w then (T.foldl kahn_step1 (deg0, [])).1 w - 1
            else (T.foldl kahn_step1 (deg0, [])).1 v)
          = deg0 v - ((T ++ [w]).count v : Int)
      rw [hcnt]
      by_cases h : v = w
      · rw [if_pos h, ihdeg, if_pos h, h]
        omega
      · rw [if_neg h, ihdeg, if_neg h]
        omega
    · by_cases hc : (T.foldl kahn_step1 (deg0, [])).1 w - 1 = 0
      · simp only [if_pos hc]
        rw [List.nodup_append]
        refine ⟨ihnd, List.nodup_singleton w, ?_⟩
        intro x hx
        rw [List.mem_singleton]
        intro hxw
        subst hxw
        have := (ihmem x).mp hx
        rw [ihdeg] at hc
        omega
      · simpa only [if_neg hc] using ihnd
    · intro v
      by_cases hc : (T.foldl kahn_step1 (deg0, [])).1 w - 1 = 0
      · rw [if_pos hc]
        rw [ihdeg] at hc
        rw [List.mem_append, List.mem_singleton, ihmem, hcnt]
        by_cases h : v = w
        · subst h
          rw [if_pos rfl]
          constructor
          · intro _
            exact ⟨by omega, by omega⟩
          · intro _
            exact Or.inr rfl
        · rw [if_neg h]
          constructor
          · rintro (hv | hv)
            · exact ⟨hv.1, by omega⟩
            · exact absurd hv h
          · intro hv
            exact Or.inl ⟨hv.1, by omega⟩
      · rw [if_neg hc]
        rw [ihdeg] at hc
        rw [ihmem, hcnt]
        by_cases h : v = w
        · subst h
          rw [if_pos rfl]
          constructor
          · intro hv
            exact ⟨hv.1, by omega⟩
          · intro hv
            exact ⟨hv.1, by omega⟩
        · rw [if_neg h]
          constructor
          · intro hv
            exact ⟨hv.1, by omega⟩
          · intro hv
            exact ⟨hv.1, by omega⟩

/-- The multiset of edge targets of a duplicate-free stage counts v
exactly edgesFrom-many times. -/
theorem count_flatMap_adj (conns : List (String × String))
    (stage : List String) (hnd : stage.Nodup) (v : String) :
    (stage.flatMap (adj conns)).count v = edgesFrom conns stage v := by
  induction stage with
  | nil =>
    rw [edgesFrom_nil]
    rfl
  | cons u us ih =>
    rcases List.nodup_cons.mp hnd with ⟨hu, hnd2⟩
    rw [List.flatMap_cons, List.count_append, ih hnd2]
    have hadj : (adj conns u).count v
        = conns.countP (fun c => c.2 = v && c.1 = u) := by
      rw [adj, List.count_eq_countP, List.countP_map, List.countP_filter]
      apply List.countP_congr
      intro c _
      by_cases h2 : c.2 = v <;> by_cases h1 : c.1 = u <;>
        simp [h2, h1]
    have hsplit : edgesFrom conns (u :: us) v
        = conns.countP (fun c => c.2 = v && c.1 = u)
          + edgesFrom conns us v := by
      rw [edgesFrom]
      have hcongr : ∀ c ∈ conns,
          (((fun c : String × String =>
              c.2 = v && decide (c.1 ∈ u :: us)) c) = true
            ↔ ((fun c : String × String =>
              (c.2 = v && c.1 = u) || (c.2 = v && decide (c.1 ∈ us))) c)
              = true) := by
        intro c _
        by_cases h2 : c.2 = v <;> by_cases h1 : c.1 = u <;>
          by_cases hm : c.1 ∈ us <;>
          simp [h2, h1, hm, List.mem_cons]
      rw [List.countP_congr hcongr,
        countP_or_disjoint (by
          intro c _ hcontra
          rcases hcontra with ⟨hA, hB⟩
          rw [Bool.and_eq_true] at hA hB
          exact hu (of_decide_eq_true hA.2 ▸ of_decide_eq_true hB.2))]
      rfl
    rw [hsplit, hadj]

/-- A positive in-degree means some connection targets v, whose target
is then a node. -/
theorem mem_nodes_of_indegN_pos {conns : List (String × String)}
    {nodes : List String}
    (hend : ∀ c ∈ conns, c.1 ∈ nodes ∧ c.2 ∈ nodes)
    {v : String} (hpos : 0 < indegN conns v) : v ∈ nodes := by
  rw [indegN, List.countP_pos] at hpos
  rcases hpos with ⟨c, hc, hcv⟩
  have h2 : c.2 = v := of_decide_eq_true hcv
  exact h2 ▸ (hend c hc).2

/-- One pass of the Kahn while loop preserves the invariant, scheduling
the whole queue. -/
theorem kahn_step_inv (conns : List (String × String)) (nodes : List String)
    (D : List String) (deg : String → Int) (queue : List String)
    (hend : ∀ c ∈ conns, c.1 ∈ nodes ∧ c.2 ∈ nodes)
    (inv : KahnInv conns nodes D deg queue) :
    KahnInv conns nodes (D ++ queue) (process_stage conns queue deg).1
      (process_stage conns queue deg).2 := by
  have hdisj : ∀ x ∈ D, x ∉ queue :=
    fun x hx hq => ((inv.q_mem x).mp hq).2.1 hx
  rw [process_stage_eq]
  obtain ⟨hdeg, hnd, hmem⟩ := kahn_fold_spec deg (queue.flatMap (adj conns))
  have hcount : ∀ v, (queue.flatMap (adj conns)).count v
      = edgesFrom conns queue v :=
    fun v => count_flatMap_adj conns queue inv.q_nodup v
  have happ : ∀ v, edgesFrom conns (D ++ queue) v
      = edgesFrom conns D v + edgesFrom conns queue v :=
    fun v => edgesFrom_append conns hdisj v
  have hboundDQ : ∀ v, edgesFrom conns (D ++ queue) v ≤ indegN conns v :=
    fun v => edgesFrom_le_indegN conns (D ++ queue) v
  have hboundD : ∀ v, edgesFrom conns D v ≤ indegN conns v :=
    fun v => edgesFrom_le_indegN conns D v
  refine ⟨?_, ?_, hnd, ?_, ?_, ?_⟩
  · intro v hv
    rcases List.mem_append.mp hv with h | h
    · exact inv.d_sub v h
    · exact ((inv.q_mem v).mp h).1
  · rw [List.nodup_append]
    exact ⟨inv.d_nodup, inv.q_nodup, hdisj⟩
  · intro v
    rw [hdeg v, inv.deg_eq v, hcount v, happ v]
    push_cast
    omega
  · intro v
    rw [hmem v, inv.deg_eq v, hcount v]
    constructor
    · rintro ⟨h1, h2⟩
      have hDlt : edgesFrom conns D v < indegN conns v := by omega
      have heq : edgesFrom conns (D ++ queue) v = indegN conns v := by
        have hb := hboundDQ v
        have hge : indegN conns v ≤ edgesFrom conns (D ++ queue) v := by
          rw [happ v]
          omega
        omega
      refine ⟨mem_nodes_of_indegN_pos hend (by omega), ?_, heq⟩
      intro hmemDQ
      rcases List.mem_append.mp hmemDQ with h | h
      · have := inv.d_full v h
        omega
      · have := ((inv.q_mem v).mp h).2.2
        omega
    · rintro ⟨hvn, hvDQ, heq⟩
      have hvD : v ∉ D := fun h => hvDQ (List.mem_append.mpr (Or.inl h))
      have hvQ : v ∉ queue := fun h => hvDQ (List.mem_append.mpr (Or.inr h))
      have hne : edgesFrom conns D v ≠ indegN conns v := by
        intro h
        exact hvQ ((inv.q_mem v).mpr ⟨hvn, hvD, h⟩)
      have hb := hboundD v
      rw [happ v] at heq
      omega
  · intro v hv
    rcases List.mem_append.mp hv with h | h
    · have h1 := inv.d_full v h
      have h2 : edgesFrom conns D v ≤ edgesFrom conns (D ++ queue) v :=
        edgesFrom_mono conns (fun x hx => List.mem_append.mpr (Or.inl hx)) v
      have hb := hboundDQ v
      omega
    · have h1 := ((inv.q_mem v).mp h).2.2
      have h2 : edgesFrom conns D v ≤ edgesFrom conns (D ++ queue) v :=
        edgesFrom_mono conns (fun x hx => List.mem_append.mpr (Or.inl hx)) v
      have hb := hboundDQ v
      omega

/-- Count form of the split used for strict filter-length comparison. -/
theorem countP_split_of_imp {α : Type} {l : List α} {p q : α → Bool}
    (himp : ∀ a ∈ l, p a = true → q a = true) :
    l.countP q = l.countP p + l.countP (fun a => q a && !p a) := by
  have hcongr : ∀ a ∈ l,
      (q a = true ↔ (fun a => p a || (q a && !p a)) a = true) := by
    intro a ha
    rcases hp : p a
    · simp [hp]
    · simp [hp, himp a ha hp]
  rw [List.countP_congr hcongr,
    countP_or_disjoint (by
      intro a _ hcontra
      rcases hcontra with ⟨h1, h2⟩
      rw [Bool.and_eq_true] at h2
      rw [h1] at h2
      simp at h2)]

/-- A filter under a strictly weaker predicate is strictly shorter,
witnessed by a separating element. -/
theorem length_filter_lt {α : Type} (l : List α) (p q : α → Bool)
    (himp : ∀ a ∈ l, p a = true → q a = true)
    (x : α) (hx : x ∈ l) (hqx : q x = true) (hpx : p x = false) :
    (l.filter p).length < (l.filter q).length := by
  rw [← List.countP_eq_length_filter, ← List.countP_eq_length_filter,
    countP_split_of_imp himp]
  have hpos : 0 < l.countP (fun a => q a && !p a) :=
    List.countP_pos.mpr ⟨x, hx, by rw [hqx, hpx]; rfl⟩
  omega

/-- The initial Kahn state satisfies the invariant. -/
theorem kahn_init_inv (conns : List (String × String)) (nodes : List String)
    (hnodup : nodes.Nodup) :
    KahnInv conns nodes [] (build_in_degree conns)
      (nodes.filter (fun v => build_in_degree conns v = 0)) := by
  refine ⟨?_, List.nodup_nil, hnodup.filter _, ?_, ?_, ?_⟩
  · intro v hv
    cases hv
  · intro v
    rw [build_in_degree_eq, edgesFrom_nil]
    simp
  · intro v
    rw [List.mem_filter]
    constructor
    · rintro ⟨hvn, hv0⟩
      have h0 : indegN conns v = 0 := by
        have := of_decide_eq_true hv0
        rw [build_in_degree_eq] at this
        exact_mod_cast this
      exact ⟨hvn, fun h => (by cases h : List.not_mem_nil v h), by
        rw [edgesFrom_nil, h0]⟩
    · rintro ⟨hvn, _, heq⟩
      rw [edgesFrom_nil] at heq
      refine ⟨hvn, decide_eq_true ?_⟩
      rw [build_in_degree_eq, ← heq]
      simp
  · intro v hv
    cases hv

/-- Master lemma for the Kahn while loop: with adequate fuel, starting
from an invariant state, the emitted stages extend D into a
duplicate-free sublist of nodes whose complement has no fully-satisfied
unscheduled node (the loop exit condition), and each emitted stage
holds exactly nodes all of whose in-edges come from the earlier
stages. -/
theorem kahn_loop_master (conns : List (String × String))
    (nodes : List String)
    (hend : ∀ c ∈ conns, c.1 ∈ nodes ∧ c.2 ∈ nodes) :
    ∀ (fuel : Nat) (deg : String → Int) (queue D : List String),
      KahnInv conns nodes D deg queue →
      (nodes.filter (fun v => decide (v ∉ D))).length < fuel →
      (D ++ (kahn_loop conns fuel deg queue).flatten).Nodup
      ∧ (∀ v ∈ (kahn_loop conns fuel deg queue).flatten, v ∈ nodes)
      ∧ (∀ v ∈ nodes, v ∉ D ++ (kahn_loop conns fuel deg queue).flatten →
          edgesFrom conns (D ++ (kahn_loop conns fuel deg queue).flatten) v
            ≠ indegN conns v)
      ∧ (∀ i (hi : i < (kahn_loop conns fuel deg queue).length) v,
          v ∈ (kahn_loop conns fuel deg queue).get ⟨i, hi⟩ →
          v ∈ nodes
          ∧ edgesFrom conns
              (D ++ ((kahn_loop conns fuel deg queue).take i).flatten) v
              = indegN conns v
          ∧ v ∉ D ++ ((kahn_loop conns fuel deg queue).take i).flatten) := by
  intro fuel
  induction fuel with
  | zero =>
    intro deg queue D inv hfuel
    omega
  | succ f ih =>
    intro deg queue D inv hfuel
    match queue with
    | [] =>
      rw [show kahn_loop conns (f + 1) deg [] = [] from rfl]
      refine ⟨by simpa using inv.d_nodup, by simp, ?_, ?_⟩
      · intro v hvn hvD heq
        simp only [List.flatten_nil, List.append_nil] at hvD heq
        exact List.not_mem_nil v ((inv.q_mem v).mpr ⟨hvn, hvD, heq⟩)
      · intro i hi
        simp at hi
    | q0 :: qs =>
      have hq0 := (inv.q_mem q0).mp (List.mem_cons_self q0 qs)
      have hunfold : kahn_loop conns (f + 1) deg (q0 :: qs)
          = (q0 :: qs) ::
            kahn_loop conns f (process_stage conns (q0 :: qs) deg).1
              (process_stage conns (q0 :: qs) deg).2 := rfl
      have inv2 := kahn_step_inv conns nodes D deg (q0 :: qs) hend inv
      have hfuel2 : (nodes.filter
          (fun v => decide (v ∉ D ++ q0 :: qs))).length < f := by
        have hlt := length_filter_lt nodes
          (fun v => decide (v ∉ D ++ q0 :: qs))
          (fun v => decide (v ∉ D))
          (by
            intro a _ ha
            have h1 := of_decide_eq_true ha
            exact decide_eq_true
              (fun hD => h1 (List.mem_append.mpr (Or.inl hD))))
          q0 hq0.1
          (decide_eq_true hq0.2.1)
          (by
            rw [decide_eq_false_iff_not]
            intro hcon
            exact hcon (List.mem_append.mpr
              (Or.inr (List.mem_cons_self q0 qs))))
        omega
      obtain ⟨ha, hb, hc, hd⟩ := ih (process_stage conns (q0 :: qs) deg).1
        (process_stage conns (q0 :: qs) deg).2 (D ++ q0 :: qs) inv2 hfuel2
      rw [hunfold]
      set rest := kahn_loop conns f (process_stage conns (q0 :: qs) deg).1
        (process_stage conns (q0 :: qs) deg).2 with hrest
      refine ⟨?_, ?_, ?_, ?_⟩
      · rw [List.flatten_cons, ← List.append_assoc]
        exact ha
      · intro v hv
        rw [List.flatten_cons, List.mem_append] at hv
        rcases hv with hv | hv
        · exact ((inv.q_mem v).mp hv).1
        · exact hb v hv
      · intro v hvn hvnot
        rw [List.flatten_cons, ← List.append_assoc] at hvnot ⊢
        exact hc v hvn hvnot
      · intro i hi v hv
        match i with
        | 0 =>
          have hv0 : v ∈ q0 :: qs := hv
          have := (inv.q_mem v).mp hv0
          rw [List.take_zero, List.flatten_nil, List.append_nil]
          exact ⟨this.1, this.2.2, this.2.1⟩
        | j + 1 =>
          have hj : j < rest.length := by
            have := hi
            rw [List.length_cons] at this
            omega
          have hv2 : v ∈ rest.get ⟨j, hj⟩ := hv
          have := hd j hj v hv2
          rw [List.take_succ_cons, List.flatten_cons, ← List.append_assoc]
          exact this

/-- In a finite nonempty set where every member has a predecessor
inside the set, some member lies on a directed cycle. -/
theorem exists_cycle_of_all_have_pred (E : String → String → Prop)
    (U : List String) (hne : U ≠ [])
    (h : ∀ v ∈ U, ∃ u ∈ U, E u v) :
    ∃ v, Relation.TransGen E v v := by
  obtain ⟨u0, hu0⟩ : ∃ u, u ∈ U := by
    match U, hne with
    | a :: t, _ => exact ⟨a, List.mem_cons_self a t⟩
  have hch : ∀ (v : {x // x ∈ U}), ∃ u : {x // x ∈ U}, E u.1 v.1 := by
    intro v
    rcases h v.1 v.2 with ⟨u, hu, hE⟩
    exact ⟨⟨u, hu⟩, hE⟩
  choose f hf using hch
  let g : Nat → {x // x ∈ U} := fun n => f^[n] ⟨u0, hu0⟩
  have hgstep : ∀ n, E (g (n + 1)).1 (g n).1 := by
    intro n
    have hit : g (n + 1) = f (g n) := Function.iterate_succ_apply' f n _
    rw [hit]
    exact hf (g n)
  have hchain : ∀ i j, i < j → Relation.TransGen E (g j).1 (g i).1 := by
    intro i j
    induction j with
    | zero => omega
    | succ j ihj =>
      intro hij
      rcases Nat.lt_succ_iff_lt_or_eq.mp hij with hlt | heq
      · exact Relation.TransGen.head (hgstep j) (ihj hlt)
      · subst heq
        exact Relation.TransGen.single (hgstep i)
  have hmaps : ∀ n ∈ Finset.range (U.length + 1),
      (g n).1 ∈ U.toFinset :=
    fun n _ => List.mem_toFinset.mpr (g n).2
  have hcard : U.toFinset.card < (Finset.range (U.length + 1)).card := by
    rw [Finset.card_range]
    have := U.toFinset_card_le
    omega
  obtain ⟨i, _, j, _, hij, heq⟩ :=
    Finset.exists_ne_map_eq_of_card_lt_of_maps_to hcard hmaps
  rcases Nat.lt_or_ge i j with hlt | hge
  · exact ⟨(g i).1, heq ▸ hchain i j hlt⟩
  · have hlt : j < i := by omega
    exact ⟨(g j).1, heq ▸ hchain j i hlt⟩

/-- A rank function increasing along every connection certifies
acyclicity. -/
theorem acyclic_of_rank (conns : List (String × String)) (f : String → Nat)
    (h : ∀ c ∈ conns, f c.1 < f c.2) : Acyclic conns := by
  intro v hcyc
  have hmono : ∀ a b, Relation.TransGen (EdgeRel conns) a b → f a < f b := by
    intro a b hab
    induction hab with
    | single h1 => exact h _ h1
    | tail _ h1 ih => exact lt_trans ih (h _ h1)
  exact lt_irrefl _ (hmono v v hcyc)

/-- Membership in the flattening of a prefix locates a stage index
below the cut. -/
theorem mem_flatten_take {α : Type} {L : List (List α)} {i : Nat} {v : α}
    (h : v ∈ (L.take i).flatten) :
    ∃ j, ∃ hj : j < L.length, j < i ∧ v ∈ L.get ⟨j, hj⟩ := by
  induction L generalizing i with
  | nil => simp at h
  | cons s L ih =>
    match i with
    | 0 => simp at h
    | k + 1 =>
      rw [List.take_succ_cons, List.flatten_cons, List.mem_append] at h
      rcases h with h | h
      · exact ⟨0, by simp, by omega, h⟩
      · rcases ih h with ⟨j, hj, hjk, hmem⟩
        exact ⟨j + 1, by simp; omega, by omega, hmem⟩

/-- In a stage list with duplicate-free flattening, a value determines
its stage index. -/
theorem stage_index_unique {L : List (List String)}
    (h : L.flatten.Nodup) {i j : Nat}
    (hi : i < L.length) (hj : j < L.length) {v : String}
    (hvi : v ∈ L.get ⟨i, hi⟩) (hvj : v ∈ L.get ⟨j, hj⟩) : i = j := by
  induction L generalizing i j with
  | nil => simp at hi
  | cons s L ih =>
    rw [List.flatten_cons, List.nodup_append] at h
    rcases h with ⟨_, hnd, hdisj⟩
    match i, j with
    | 0, 0 => rfl
    | 0, j + 1 =>
      exact absurd
        (hdisj hvi (List.mem_flatten.mpr
          ⟨L.get ⟨j, by simpa using hj⟩, List.get_mem _ _ _, hvj⟩)) not_false
    | i + 1, 0 =>
      exact absurd
        (hdisj hvj (List.mem_flatten.mpr
          ⟨L.get ⟨i, by simpa using hi⟩, List.get_mem _ _ _, hvi⟩)) not_false
    | i + 1, j + 1 =>
      have := ih hnd (by simpa using hi) (by simpa using hj) hvi hvj
      omega

/-- C2: for every pipeline with duplicate-free node ids, connection
endpoints among the nodes and an acyclic connection graph, the Kahn
staging of get_execution_order / _calculate_execution_order partitions
exactly the node ids ((1) no node appears twice, (2) coverage), places
every connection's target in a strictly greater stage index than its
source (3), puts every node without incoming connection into stage 0
(4); the empty pipeline yields the empty stage list (5), and
get_execution_order computes the same staging as
_calculate_execution_order (6). -/
theorem c2_topological_staging (nodes : List String)
    (conns : List (String × String))
    (hnodup : nodes.Nodup)
    (hend : ∀ c ∈ conns, c.1 ∈ nodes ∧ c.2 ∈ nodes)
    (hacyc : Acyclic conns) :
    (calculate_execution_order nodes conns).flatten.Nodup
    ∧ (∀ v, v ∈ (calculate_execution_order nodes conns).flatten ↔ v ∈ nodes)
    ∧ (∀ c ∈ conns, ∀ i j
        (hi : i < (calculate_execution_order nodes conns).length)
        (hj : j < (calculate_execution_order nodes conns).length),
        c.2 ∈ (calculate_execution_order nodes conns).get ⟨i, hi⟩ →
        c.1 ∈ (calculate_execution_order nodes conns).get ⟨j, hj⟩ →
        j < i)
    ∧ (∀ v ∈ nodes, (∀ c ∈ conns, c.2 ≠ v) →
        ∃ h0 : 0 < (calculate_execution_order nodes conns).length,
          v ∈ (calculate_execution_order nodes conns).get ⟨0, h0⟩)
    ∧ calculate_execution_order [] conns = []
    ∧ (∀ p : Pipeline, get_execution_order p
        = calculate_execution_order (p.nodes.map (fun n => n.id))
            p.connections) := by
  have hfuel0 : (nodes.filter
      (fun v => decide (v ∉ ([] : List String)))).length
      < nodes.length + 1 := by
    have := List.length_filter_le
      (fun v => decide (v ∉ ([] : List String))) nodes
    omega
  obtain ⟨ha, hb, hc, hd⟩ := kahn_loop_master conns nodes hend
    (nodes.length + 1) (build_in_degree conns)
    (nodes.filter (fun v => build_in_degree conns v = 0)) []
    (kahn_init_inv conns nodes hnodup) hfuel0
  have hco : calculate_execution_order nodes conns
      = kahn_loop conns (nodes.length + 1) (build_in_degree conns)
          (nodes.filter (fun v => build_in_degree conns v = 0)) := rfl
  rw [← hco] at ha hb hc hd
  simp only [List.nil_append] at ha hc hd
  have hcover : ∀ v ∈ nodes,
      v ∈ (calculate_execution_order nodes conns).flatten := by
    by_contra hnot
    push_neg at hnot
    obtain ⟨v0, hv0n, hv0not⟩ := hnot
    have hUne : nodes.filter (fun v =>
        decide (v ∉ (calculate_execution_order nodes conns).flatten)) ≠ [] := by
      intro h
      have hm : v0 ∈ nodes.filter (fun v =>
          decide (v ∉ (calculate_execution_order nodes conns).flatten)) :=
        List.mem_filter.mpr ⟨hv0n, decide_eq_true hv0not⟩
      rw [h] at hm
      exact List.not_mem_nil v0 hm
    have hpred : ∀ w ∈ nodes.filter (fun v =>
        decide (v ∉ (calculate_execution_order nodes conns).flatten)),
        ∃ u ∈ nodes.filter (fun v =>
          decide (v ∉ (calculate_execution_order nodes conns).flatten)),
          EdgeRel conns u w := by
      intro w hw
      rcases List.mem_filter.mp hw with ⟨hwn, hwd⟩
      have hwnot : w ∉ (calculate_execution_order nodes conns).flatten :=
        of_decide_eq_true hwd
      have hne := hc w hwn hwnot
      have hnall : ¬ ∀ c ∈ conns, c.2 = w →
          c.1 ∈ (calculate_execution_order nodes conns).flatten := by
        intro hall
        exact hne ((edgesFrom_eq_indegN_iff conns _ w).mpr hall)
      push_neg at hnall
      obtain ⟨c, hcmem, hc2, hc1not⟩ := hnall
      refine ⟨c.1, List.mem_filter.mpr
        ⟨(hend c hcmem).1, decide_eq_true hc1not⟩, ?_⟩
      rw [EdgeRel]
      rw [← hc2]
      simpa using hcmem
    obtain ⟨v, hv⟩ := exists_cycle_of_all_have_pred (EdgeRel conns) _
      hUne hpred
    exact hacyc v hv
  refine ⟨ha, ?_, ?_, ?_, rfl, ?_⟩
  · intro v
    exact ⟨fun h => hb v h, fun h => hcover v h⟩
  · intro c hcm i j hi hj hv2 hv1
    have h2 := hd i hi c.2 hv2
    have hc1take : c.1 ∈ ((calculate_execution_order nodes conns).take
        i).flatten :=
      (edgesFrom_eq_indegN_iff conns _ c.2).mp h2.2.1 c hcm rfl
    obtain ⟨j2, hj2, hj2lt, hj2mem⟩ := mem_flatten_take hc1take
    have := stage_index_unique ha hj hj2 hv1 hj2mem
    omega
  · intro v hvn hno
    have hdeg0 : indegN conns v = 0 := by
      rw [indegN, List.countP_eq_zero]
      intro c hcm hdec
      exact hno c hcm (of_decide_eq_true hdec)
    have hvq : v ∈ nodes.filter (fun v => build_in_degree conns v = 0) := by
      apply List.mem_filter.mpr
      refine ⟨hvn, decide_eq_true ?_⟩
      rw [build_in_degree_eq, hdeg0]
      simp
    rcases hq : nodes.filter (fun v => build_in_degree conns v = 0)
      with _ | ⟨q0, qs⟩
    · rw [hq] at hvq
      exact absurd hvq (List.not_mem_nil v)
    · have hstageeq : calculate_execution_order nodes conns
          = (q0 :: qs) :: kahn_loop conns nodes.length
              (process_stage conns (q0 :: qs) (build_in_degree conns)).1
              (process_stage conns (q0 :: qs) (build_in_degree conns)).2 := by
        rw [calculate_execution_order, hq]
        rfl
      rw [hstageeq]
      refine ⟨by simp, ?_⟩
      show v ∈ q0 :: qs
      rw [← hq]
      exact hvq
  · intro p
    rw [get_execution_order]
    by_cases hne : p.nodes.isEmpty
    · rw [if_pos hne, List.isEmpty_iff.mp hne]
      rfl
    · rw [if_neg hne]

/-- Witness for C2 at the diamond pipeline a to b, a to c, b to d,
c to d: the staging covers the four nodes without duplicates and stages
them as expected. -/
theorem c2_topological_staging_witness :
    (calculate_execution_order ["a", "b", "c", "d"]
      [("a", "b"), ("a", "c"), ("b", "d"), ("c", "d")]).flatten.Nodup
    ∧ "d" ∈ (calculate_execution_order ["a", "b", "c", "d"]
      [("a", "b"), ("a", "c"), ("b", "d"), ("c", "d")]).flatten
    ∧ calculate_execution_order ["a", "b", "c", "d"]
      [("a", "b"), ("a", "c"), ("b", "d"), ("c", "d")]
      = [["a"], ["b", "c"], ["d"]] := by
  have h := c2_topological_staging ["a", "b", "c", "d"]
    [("a", "b"), ("a", "c"), ("b", "d"), ("c", "d")]
    (by decide) (by decide)
    (acyclic_of_rank _
      (fun si => if si = "a" then 0 else if si = "d" then 2 else 1)
      (by decide))
  exact ⟨h.1, (h.2.1 "d").mpr (by decide), by decide⟩

/- ==================================================================
DFS cycle detection: completeness of the False verdict
================================================================== -/

/-- A False return of the _has_cycles dfs (and of its neighbour loop)
preserves the black-order invariant, visits its argument, and can only
happen off the rec_stack. -/
theorem dfs_false_inv (nodeIds : List String)
    (conns : List (String × String)) :
    ∀ fuel : Nat,
      (∀ v visited recStack black res,
        dfs_visit nodeIds conns fuel v visited recStack black = res →
        res.1 = false →
        DfsInv nodeIds conns visited recStack black →
        DfsInv nodeIds conns res.2.1 recStack res.2.2
        ∧ v ∈ res.2.1 ∧ v ∉ recStack ∧ ∀ x ∈ visited, x ∈ res.2.1)
      ∧ (∀ vs visited recStack black res,
        dfs_list nodeIds conns fuel vs visited recStack black = res →
        res.1 = false →
        DfsInv nodeIds conns visited recStack black →
        DfsInv nodeIds conns res.2.1 recStack res.2.2
        ∧ (∀ x ∈ visited, x ∈ res.2.1)
        ∧ ∀ y ∈ vs, y ∈ res.2.1 ∧ y ∉ recStack) := by
  intro fuel
  induction fuel with
  | zero =>
    constructor
    · intro v visited recStack black res hres hfalse inv
      rw [dfs_visit] at hres
      rw [← hres] at hfalse
      cases hfalse
    · intro vs visited recStack black res hres hfalse inv
      match vs, hres with
      | [], hres =>
        rw [dfs_list] at hres
        rw [← hres]
        exact ⟨inv, fun x hx => hx, by simp⟩
      | v :: rest, hres =>
        rw [dfs_list] at hres
        simp only [dfs_visit] at hres
        rw [← hres] at hfalse
        cases hfalse
  | succ fuel ih =>
    obtain ⟨ihv, ihl⟩ := ih
    have hvisit : ∀ v visited recStack black res,
        dfs_visit nodeIds conns (fuel + 1) v visited recStack black = res →
        res.1 = false →
        DfsInv nodeIds conns visited recStack black →
        DfsInv nodeIds conns res.2.1 recStack res.2.2
        ∧ v ∈ res.2.1 ∧ v ∉ recStack ∧ ∀ x ∈ visited, x ∈ res.2.1 := by
      intro v visited recStack black res hres hfalse inv
      rw [dfs_visit] at hres
      by_cases hrs : v ∈ recStack
      · rw [if_pos hrs] at hres
        rw [← hres] at hfalse
        cases hfalse
      · rw [if_neg hrs] at hres
        by_cases hvis : v ∈ visited
        · rw [if_pos hvis] at hres
          rw [← hres]
          exact ⟨inv, hvis, hrs, fun x hx => hx⟩
        · rw [if_neg hvis] at hres
          have hvb : v ∉ black := by
            intro hb
            exact hvis ((inv.vis_iff v).mpr (Or.inr hb))
          have inv2 : DfsInv nodeIds conns (visited ++ [v])
              (recStack ++ [v]) black := by
            refine ⟨?_, ?_, inv.b_nodup, inv.closure⟩
            · intro x
              simp only [List.mem_append, List.mem_singleton, inv.vis_iff x]
              tauto
            · intro x hx
              rcases List.mem_append.mp hx with h | h
              · exact inv.disj x h
              · rw [List.mem_singleton] at h
                subst h
                exact hvb
          rcases hc : dfs_list nodeIds conns fuel
              (dfs_neighbors nodeIds conns v) (visited ++ [v])
              (recStack ++ [v]) black with ⟨b, vis2, bl2⟩
          rw [hc] at hres
          match b, hres with
          | true, hres =>
            rw [← hres] at hfalse
            cases hfalse
          | false, hres =>
            obtain ⟨invC, monoC, nbrC⟩ :=
              ihl (dfs_neighbors nodeIds conns v) (visited ++ [v])
                (recStack ++ [v]) black (false, vis2, bl2) hc rfl inv2
            have hvbl2 : v ∉ bl2 :=
              invC.disj v (List.mem_append.mpr (Or.inr (List.mem_singleton.mpr rfl)))
            rw [← hres]
            refine ⟨⟨?_, ?_, ?_, ?_⟩, ?_, hrs, ?_⟩
            · intro x
              simp only [invC.vis_iff x, List.mem_append, List.mem_singleton]
              tauto
            · intro x hx
              have h1 := invC.disj x (List.mem_append.mpr (Or.inl hx))
              rw [List.mem_append, List.mem_singleton]
              rintro (h | h)
              · exact h1 h
              · subst h
                exact hrs hx
            · rw [List.nodup_append]
              exact ⟨invC.b_nodup, List.nodup_singleton v,
                fun x hx hxv => (List.mem_singleton.mp hxv ▸ hvbl2) hx⟩
            · intro k hk y hy
              rcases Nat.lt_or_ge k bl2.length with hklt | hkge
              · have hget : (bl2 ++ [v]).get ⟨k, hk⟩
                    = bl2.get ⟨k, hklt⟩ := by
                  rw [List.get_eq_getElem, List.get_eq_getElem,
                    List.getElem_append_left hklt]
                rw [hget] at hy
                have := invC.closure k hklt y hy
                rw [List.take_append_of_le_length (Nat.le_of_lt hklt)]
                exact this
              · have hkeq : k = bl2.length := by
                  rw [List.length_append, List.length_singleton] at hk
                  omega
                have hget : (bl2 ++ [v]).get ⟨k, hk⟩ = v := by
                  rw [List.get_eq_getElem]
                  exact List.getElem_concat_length bl2 v k hkeq _
                rw [hget] at hy
                obtain ⟨hyvis, hynstack⟩ := nbrC y hy
                have hybl2 : y ∈ bl2 := by
                  rcases (invC.vis_iff y).mp hyvis with h | h
                  · exact absurd h hynstack
                  · exact h
                rw [hkeq, List.take_left]
                exact hybl2
            · exact monoC v (List.mem_append.mpr
                (Or.inr (List.mem_singleton.mpr rfl)))
            · intro x hx
              exact monoC x (List.mem_append.mpr (Or.inl hx))
    refine ⟨hvisit, ?_⟩
    intro vs
    induction vs with
    | nil =>
      intro visited recStack black res hres hfalse inv
      rw [dfs_list] at hres
      rw [← hres]
      exact ⟨inv, fun x hx => hx, by simp⟩
    | cons v rest ihrest =>
      intro visited recStack black res hres hfalse inv
      rw [dfs_list] at hres
      rcases hc : dfs_visit nodeIds conns (fuel + 1) v visited recStack black
        with ⟨b, visA, blA⟩
      rw [hc] at hres
      match b, hres with
      | true, hres =>
        rw [← hres] at hfalse
        cases hfalse
      | false, hres =>
        obtain ⟨invA, hvA, hvnr, monoA⟩ :=
          hvisit v visited recStack black (false, visA, blA) hc rfl inv
        obtain ⟨invR, monoR, restR⟩ :=
          ihrest visA recStack blA res hres hfalse invA
        refine ⟨invR, fun x hx => monoR x (monoA x hx), ?_⟩
        intro y hy
        rcases List.mem_cons.mp hy with h | h
        · subst h
          exact ⟨monoR y hvA, hvnr⟩
        · exact restR y h

/-- A False verdict of the outer _has_cycles loop yields a final
invariant state with every loop start visited. -/
theorem has_cycles_loop_false (nodeIds : List String)
    (conns : List (String × String)) :
    ∀ (us : List String) (visited black : List String),
      has_cycles_loop nodeIds conns us visited black = false →
      DfsInv nodeIds conns visited [] black →
      ∃ visF blF, DfsInv nodeIds conns visF [] blF
        ∧ (∀ x ∈ visited, x ∈ visF)
        ∧ (∀ u ∈ us, u ∈ visF) := by
  intro us
  induction us with
  | nil =>
    intro visited black _ inv
    exact ⟨visited, black, inv, fun x hx => hx, by simp⟩
  | cons u rest ih =>
    intro visited black hres inv
    rw [has_cycles_loop] at hres
    by_cases hu : u ∈ visited
    · rw [if_pos hu] at hres
      obtain ⟨visF, blF, invF, monoF, restF⟩ := ih visited black hres inv
      refine ⟨visF, blF, invF, monoF, ?_⟩
      intro x hx
      rcases List.mem_cons.mp hx with h | h
      · subst h
        exact monoF x hu
      · exact restF x h
    · rw [if_neg hu] at hres
      rcases hc : dfs_visit nodeIds conns (nodeIds.length + 1) u visited []
        black with ⟨b, visA, blA⟩
      rw [hc] at hres
      match b, hres with
      | true, hres => cases hres
      | false, hres =>
        obtain ⟨invA, huA, _, monoA⟩ :=
          (dfs_false_inv nodeIds conns (nodeIds.length + 1)).1 u visited []
            black (false, visA, blA) hc rfl inv
        obtain ⟨visF, blF, invF, monoF, restF⟩ := ih visA blA hres invA
        refine ⟨visF, blF, invF, fun x hx => monoF x (monoA x hx), ?_⟩
        intro x hx
        rcases List.mem_cons.mp hx with h | h
        · subst h
          exact monoF x huA
        · exact restF x h

/-- First occurrence inside a prefix sits before the cut. -/
theorem indexOf_lt_of_mem_take {l : List String} {y : String} {k : Nat}
    (h : y ∈ l.take k) : l.indexOf y < k := by
  induction l generalizing k with
  | nil => simp at h
  | cons a t ih =>
    match k with
    | 0 => simp at h
    | k + 1 =>
      rw [List.take_succ_cons, List.mem_cons] at h
      by_cases hay : a = y
      · rw [List.indexOf_cons_eq t hay]
        omega
      · rw [List.indexOf_cons_ne t hay]
        rcases h with h | h
        · exact absurd h.symm hay
        · have := ih h
          omega

/-- If _has_cycles answers False, the connection graph restricted to
node sources and targets carries no directed cycle. -/
theorem has_cycles_false_acyclic (p : Pipeline)
    (hend : ∀ c ∈ p.connections,
      c.1 ∈ p.nodes.map (fun n => n.id) ∧ c.2 ∈ p.nodes.map (fun n => n.id))
    (hfalse : has_cycles p = false) : Acyclic p.connections := by
  intro v hcyc
  have hinit : DfsInv (p.nodes.map (fun n => n.id)) p.connections [] [] [] := by
    refine ⟨by simp, by simp, List.nodup_nil, ?_⟩
    intro k hk
    simp at hk
  have hfalse2 : has_cycles_loop (p.nodes.map (fun n => n.id)) p.connections
      (p.nodes.map (fun n => n.id)) [] [] = false := hfalse
  obtain ⟨visF, blF, invF, _, hall⟩ := has_cycles_loop_false
    (p.nodes.map (fun n => n.id)) p.connections
    (p.nodes.map (fun n => n.id)) [] [] hfalse2 hinit
  have hvisbl : ∀ x ∈ visF, x ∈ blF := by
    intro x hx
    rcases (invF.vis_iff x).mp hx with h | h
    · exact absurd h (List.not_mem_nil x)
    · exact h
  have hids : ∀ x ∈ p.nodes.map (fun n => n.id), x ∈ blF :=
    fun x hx => hvisbl x (hall x hx)
  have hstep : ∀ a b, EdgeRel p.connections a b → a ∈ blF →
      b ∈ blF ∧ blF.indexOf b < blF.indexOf a := by
    intro a b hE ha
    have haids : a ∈ p.nodes.map (fun n => n.id) :=
      (hend (a, b) hE).1
    have hlen : blF.indexOf a < blF.length := List.indexOf_lt_length.mpr ha
    have hget : blF.get ⟨blF.indexOf a, hlen⟩ = a := List.indexOf_get hlen
    have hnbr : b ∈ dfs_neighbors (p.nodes.map (fun n => n.id))
        p.connections (blF.get ⟨blF.indexOf a, hlen⟩) := by
      rw [hget, dfs_neighbors, if_pos haids, adj]
      exact List.mem_map.mpr ⟨(a, b),
        List.mem_filter.mpr ⟨hE, by simp⟩, rfl⟩
    have htake := invF.closure (blF.indexOf a) hlen b hnbr
    exact ⟨List.take_subset _ _ htake, indexOf_lt_of_mem_take htake⟩
  have hdesc : ∀ a b, Relation.TransGen (EdgeRel p.connections) a b →
      a ∈ blF → b ∈ blF ∧ blF.indexOf b < blF.indexOf a := by
    intro a b hab
    induction hab with
    | single h1 => exact fun ha => hstep _ _ h1 ha
    | tail _ h1 ihd =>
      intro ha
      obtain ⟨hb, hlt⟩ := ihd ha
      obtain ⟨hc2, hlt2⟩ := hstep _ _ h1 hb
      exact ⟨hc2, by omega⟩
  have hvbl : v ∈ blF := by
    cases hcyc with
    | single h1 => exact hids v (hend (v, v) h1).1
    | tail _ h1 => exact hids v (hend (_, v) h1).2
  have := (hdesc v v hcyc hvbl).2
  omega

/-- C4: a pipeline whose connection graph carries a directed cycle (over
duplicate-free node ids with endpoints among the nodes) fails
validate_pipeline (valid = false), and the stage list of
get_execution_order is never a full staging: some node id is missing
from its stages. -/
theorem c4_cycle_blocks_validation_and_staging (p : Pipeline)
    (hnodup : (p.nodes.map (fun n => n.id)).Nodup)
    (hend : ∀ c ∈ p.connections,
      c.1 ∈ p.nodes.map (fun n => n.id) ∧ c.2 ∈ p.nodes.map (fun n => n.id))
    (hcyc : ∃ v, Relation.TransGen (EdgeRel p.connections) v v) :
    (validate_pipeline p).valid = false
    ∧ ∃ v ∈ p.nodes.map (fun n => n.id),
        v ∉ (get_execution_order p).flatten := by
  obtain ⟨v0, hv0⟩ := hcyc
  have hhc : has_cycles p = true := by
    rcases hb : has_cycles p
    · exact absurd hv0 (has_cycles_false_acyclic p hend hb v0)
    · rfl
  constructor
  · have hmem : "Pipeline contains circular dependencies"
        ∈ (if p.nodes.isEmpty then ["Pipeline must have at least one node"]
            else [])
          ++ (if has_cycles p then ["Pipeline contains circular dependencies"]
              else [])
          ++ p.nodes.flatMap builder_validate_node := by
      rw [hhc]
      simp
    have hne := List.ne_nil_of_mem hmem
    show ((if p.nodes.isEmpty then ["Pipeline must have at least one node"]
            else [])
          ++ (if has_cycles p then ["Pipeline contains circular dependencies"]
              else [])
          ++ p.nodes.flatMap builder_validate_node).isEmpty = false
    rcases herr : (if p.nodes.isEmpty
          then ["Pipeline must have at least one node"] else [])
        ++ (if has_cycles p then ["Pipeline contains circular dependencies"]
            else [])
        ++ p.nodes.flatMap builder_validate_node with _ | ⟨e, es⟩
    · exact absurd herr hne
    · rfl
  · have hfuel0 : ((p.nodes.map (fun n => n.id)).filter
        (fun v => decide (v ∉ ([] : List String)))).length
        < (p.nodes.map (fun n => n.id)).length + 1 := by
      have := List.length_filter_le
        (fun v => decide (v ∉ ([] : List String)))
        (p.nodes.map (fun n => n.id))
      omega
    obtain ⟨ha, hb2, hc2, hd⟩ := kahn_loop_master p.connections
      (p.nodes.map (fun n => n.id)) hend
      ((p.nodes.map (fun n => n.id)).length + 1)
      (build_in_degree p.connections)
      ((p.nodes.map (fun n => n.id)).filter
        (fun v => build_in_degree p.connections v = 0)) []
      (kahn_init_inv p.connections (p.nodes.map (fun n => n.id)) hnodup)
      hfuel0
    have hco : calculate_execution_order (p.nodes.map (fun n => n.id))
        p.connections
        = kahn_loop p.connections ((p.nodes.map (fun n => n.id)).length + 1)
            (build_in_degree p.connections)
            ((p.nodes.map (fun n => n.id)).filter
              (fun v => build_in_degree p.connections v = 0)) := rfl
    rw [← hco] at ha hb2 hc2 hd
    simp only [List.nil_append] at ha hc2 hd
    by_contra hnone
    push_neg at hnone
    have hvids : v0 ∈ p.nodes.map (fun n => n.id) := by
      cases hv0 with
      | single h1 => exact (hend (v0, v0) h1).1
      | tail _ h1 => exact (hend (_, v0) h1).2
    have hget : get_execution_order p
        = calculate_execution_order (p.nodes.map (fun n => n.id))
            p.connections := by
      rw [get_execution_order]
      by_cases hne : p.nodes.isEmpty
      · rw [if_pos hne, List.isEmpty_iff.mp hne]
        rfl
      · rw [if_neg hne]
    rw [hget] at hnone
    have hcover : ∀ w ∈ p.nodes.map (fun n => n.id),
        w ∈ (calculate_execution_order (p.nodes.map (fun n => n.id))
          p.connections).flatten := hnone
    have hstep : ∀ u w, EdgeRel p.connections u w →
        ∀ i (hi : i < (calculate_execution_order
            (p.nodes.map (fun n => n.id)) p.connections).length),
          w ∈ (calculate_execution_order (p.nodes.map (fun n => n.id))
            p.connections).get ⟨i, hi⟩ →
          ∃ j, ∃ hj : j < (calculate_execution_order
              (p.nodes.map (fun n => n.id)) p.connections).length,
            j < i ∧ u ∈ (calculate_execution_order
              (p.nodes.map (fun n => n.id)) p.connections).get ⟨j, hj⟩ := by
      intro u w hE i hi hw
      have h2 := hd i hi w hw
      have hutake : u ∈ ((calculate_execution_order
          (p.nodes.map (fun n => n.id)) p.connections).take i).flatten :=
        (edgesFrom_eq_indegN_iff p.connections _ w).mp h2.2.1 (u, w) hE rfl
      exact mem_flatten_take hutake
    have hdesc : ∀ a b,
        Relation.TransGen (EdgeRel p.connections) a b →
        ∀ i (hi : i < (calculate_execution_order
            (p.nodes.map (fun n => n.id)) p.connections).length),
          b ∈ (calculate_execution_order (p.nodes.map (fun n => n.id))
            p.connections).get ⟨i, hi⟩ →
          ∃ j, ∃ hj : j < (calculate_execution_order
              (p.nodes.map (fun n => n.id)) p.connections).length,
            j < i ∧ a ∈ (calculate_execution_order
              (p.nodes.map (fun n => n.id)) p.connections).get ⟨j, hj⟩ := by
      intro a b hab
      induction hab with
      | single h1 => exact hstep _ _ h1
      | tail _ h1 ihd =>
        intro i hi hb3
        obtain ⟨j, hj, hji, hbj⟩ := hstep _ _ h1 i hi hb3
        obtain ⟨k, hk, hkj, hak⟩ := ihd j hj hbj
        exact ⟨k, hk, by omega, hak⟩
    have hvflat := hcover v0 hvids
    obtain ⟨s, hs, hvs⟩ := List.mem_flatten.mp hvflat
    obtain ⟨⟨i, hi⟩, hgi⟩ := List.mem_iff_get.mp hs
    have hvi : v0 ∈ (calculate_execution_order
        (p.nodes.map (fun n => n.id)) p.connections).get ⟨i, hi⟩ :=
      hgi ▸ hvs
    obtain ⟨j, hj, hji, hvj⟩ := hdesc v0 v0 hv0 i hi hvi
    have := stage_index_unique ha hj hi hvj hvi
    omega

/-- Witness for C4 at the two-node cycle a to b to a. -/
theorem c4_cycle_blocks_validation_and_staging_witness :
    (validate_pipeline c4_cyclic_pipeline).valid = false
    ∧ ∃ v ∈ c4_cyclic_pipeline.nodes.map (fun n => n.id),
        v ∉ (get_execution_order c4_cyclic_pipeline).flatten :=
  c4_cycle_blocks_validation_and_staging c4_cyclic_pipeline
    (by decide) (by decide)
    ⟨"a", Relation.TransGen.head
      (show ("a", "b") ∈ c4_cyclic_pipeline.connections by decide)
      (Relation.TransGen.single
        (show ("b", "a") ∈ c4_cyclic_pipeline.connections by decide))⟩

end PipelineEngine
